import Mathlib

/-!
Verification of the go-sqlmock expectation-matching engine and fabricated
row-set iterator, as a shallow embedding of the Go source.

The embedding follows the source files `sqlmock.go`, `expectations.go`,
`rows.go` and `sqlmock_go18.go` of the repository.  Go panics are modelled
as explicit outcomes (`Except` errors or dedicated constructors), machine
integers as `Int`/`Nat`, and the reflection (`reflect.Value`) accessors used
by the argument comparison are modelled with their documented panic and
placeholder-string behaviour.
-/

namespace Sqlmock

/-- Go `error` values: programmed (test-authored) errors are identified by a
tag, generated errors carry their formatted message, `cancelled` is the
distinct `ErrCancelled` value of sqlmock_go18.go, `eof` is `io.EOF`. -/
inductive GoError
  | user (id : Nat)
  | errMsg (s : String)
  | cancelled
  | eof
  deriving DecidableEq, Repr

/-- Reflected Go values as seen by `argsMatches` (expectations.go): the kind
classes distinguished by its switch, with the numeric bit width recorded
(`w = 0` stands for machine-sized `int`/`uint`; float payloads are coded
numbers compared by equality).  `vother` covers every remaining reflect kind
(bool, struct such as `time.Time`, slice, ptr, ...): it records a kind tag,
the type name (as printed by `reflect.Value.String` placeholders) and an
abstract payload that the comparison never inspects. -/
inductive RVal
  | vint (w : Nat) (v : Int)
  | vuint (w : Nat) (v : Nat)
  | vfloat (w : Nat) (v : Int)
  | vstring (s : String)
  | vother (kind : Nat) (ty : String) (payload : Nat)
  deriving DecidableEq, Repr

/-- The exact `reflect.Kind` of a value (numeric widths distinguished). -/
inductive RKind
  | kint (w : Nat)
  | kuint (w : Nat)
  | kfloat (w : Nat)
  | kstring
  | kother (tag : Nat)
  deriving DecidableEq, Repr

def rkind : RVal → RKind
  | .vint w _ => .kint w
  | .vuint w _ => .kuint w
  | .vfloat w _ => .kfloat w
  | .vstring _ => .kstring
  | .vother k _ _ => .kother k

/-- The coarse kind class used by the `argsMatches` switch: all signed
integer widths fall in one case, and so on. -/
inductive KindClass
  | intClass
  | uintClass
  | floatClass
  | stringClass
  | otherClass (tag : Nat)
  deriving DecidableEq, Repr

def kindClass : RVal → KindClass
  | .vint _ _ => .intClass
  | .vuint _ _ => .uintClass
  | .vfloat _ _ => .floatClass
  | .vstring _ => .stringClass
  | .vother k _ _ => .otherClass k

def numName (base : String) (w : Nat) : String :=
  if w = 0 then base else base ++ toString w

/-- `reflect.Type.String` for the modelled values. -/
def typeStr : RVal → String
  | .vint w _ => numName "int" w
  | .vuint w _ => numName "uint" w
  | .vfloat w _ => numName "float" w
  | .vstring _ => "string"
  | .vother _ ty _ => ty

/-- `reflect.Value.String`: the underlying string for string kinds; for any
other kind it does not panic but returns the placeholder text
`<T Value>` where `T` is the type name. -/
def reflectString : RVal → String
  | .vstring s => s
  | v => "<" ++ typeStr v ++ " Value>"

/-- A declared expected argument: either a concrete value or an `Argument`
matcher object (argument.go), which carries its `Match` predicate. -/
inductive EArg
  | val (v : RVal)
  | matcher (m : RVal → Bool)

/-- One iteration of the `argsMatches` loop body (expectations.go 345-378).
`Except Unit` models a reflect panic: `ai.Int`, `ai.Float` and `ai.Uint`
panic when the declared value is of another kind, while `String` falls back
to the placeholder text.  The result `.ok true` means the loop continues
(this position matched). -/
def matchArg (ea : EArg) (v : RVal) : Except Unit Bool :=
  match ea with
  | .matcher m => .ok (m v)
  | .val a =>
    match v with
    | .vint _ vi =>
      match a with
      | .vint _ ai => .ok (decide (vi = ai))
      | _ => .error ()
    | .vfloat _ vi =>
      match a with
      | .vfloat _ ai => .ok (decide (vi = ai))
      | _ => .error ()
    | .vuint _ vi =>
      match a with
      | .vuint _ ai => .ok (decide (vi = ai))
      | _ => .error ()
    | .vstring s => .ok (decide (s = reflectString a))
    | .vother k _ _ => .ok (decide (RKind.kother k = rkind a))

/-- The `for k, v := range args` loop of `argsMatches`: stops at the first
position that definitely fails (`.ok false`) or panics (`.error`). -/
def argsLoop : List (EArg × RVal) → Except Unit Bool
  | [] => .ok true
  | (ea, v) :: rest =>
    match matchArg ea v with
    | .error e => .error e
    | .ok false => .ok false
    | .ok true => argsLoop rest

/-- `argsMatches` (expectations.go 338-380): a `nil` declared list accepts
anything; a length mismatch is a definite no-match; otherwise the positions
are compared pairwise.  `.error` is an uncaught reflect panic escaping the
function. -/
def argsMatches (eargs : Option (List EArg)) (args : List RVal) : Except Unit Bool :=
  match eargs with
  | none => .ok true
  | some ea =>
    if args.length = ea.length then argsLoop (ea.zip args) else .ok false

/-- A compiled SQL regular expression: the pattern text together with its
`MatchString` predicate. -/
structure SqlPat where
  pat : String
  test : String → Bool

/-- The shared query-based expectation data (expectations.go 315-319). -/
structure QueryBased where
  sqlRegex : SqlPat
  args : Option (List EArg)

def queryMatches (e : QueryBased) (sql : String) : Bool :=
  e.sqlRegex.test sql

/-- `attemptMatch` (expectations.go 321-332), used by the unordered scan.
The source writes a bare `defer recover()`, which in Go does not stop a
panic — recover only recovers when called by a deferred function, not as
the deferred call itself — so a reflect panic inside `argsMatches`
escapes `attemptMatch` (`.error`); only the SQL pre-check and the
definite argument answers are returned normally. -/
def attemptMatch (e : QueryBased) (sql : String) (args : List RVal) : Except Unit Bool :=
  if queryMatches e sql then argsMatches e.args args
  else .ok false

/-- Whitespace characters of Go regexp `\s`. -/
def isSpaceChar (c : Char) : Bool :=
  c = ' ' || c = '\t' || c = '\n' || c = '\x0c' || c = '\r'

/-- Replace every run of whitespace by a single space
(`re.ReplaceAllString(q, " ")` with `re = \s+`); the boolean records whether
the previous character belonged to a run. -/
def collapseWsAux : Bool → List Char → List Char
  | _, [] => []
  | prevWs, c :: rest =>
    if isSpaceChar c then
      if prevWs then collapseWsAux true rest
      else ' ' :: collapseWsAux true rest
    else c :: collapseWsAux false rest

def trimSpaces (cs : List Char) : List Char :=
  ((cs.dropWhile isSpaceChar).reverse.dropWhile isSpaceChar).reverse

/-- `stripQuery` (util.go): collapse whitespace runs and trim. -/
def stripQuery (q : String) : String :=
  String.mk (trimSpaces (collapseWsAux false q.data))

/-- `commonExpectation` (expectations.go 31-36): the triggered flag and the
programmed error shared by every expectation kind. -/
structure CommonExp where
  triggered : Bool := false
  err : Option GoError := none

/-- `NewResult` data (result.go): last insert id, affected rows and the
optional error of `NewErrorResult`. -/
structure ResultData where
  insertID : Int
  rowsAffected : Int
  resErr : Option GoError := none
  deriving DecidableEq, Repr

/-- The expectation variants of expectations.go.  `equery` keeps its
`driver.Rows` payload as an opaque handle (the row-set behaviour itself is
modelled separately by `RState`); `eprepare` records the close bookkeeping
used by `ExpectationsWereMet`. -/
inductive Exp
  | eclose (c : CommonExp)
  | ebegin (c : CommonExp) (delay : Nat)
  | ecommit (c : CommonExp)
  | erollback (c : CommonExp)
  | eprepare (c : CommonExp) (sqlRegex : SqlPat) (closeErr : Option GoError)
      (mustBeClosed : Bool) (wasClosed : Bool) (delay : Nat)
  | equery (c : CommonExp) (q : QueryBased) (rows : Option Nat) (delay : Nat)
  | eexec (c : CommonExp) (q : QueryBased) (result : Option ResultData) (delay : Nat)

def Exp.common : Exp → CommonExp
  | .eclose c => c
  | .ebegin c _ => c
  | .ecommit c => c
  | .erollback c => c
  | .eprepare c _ _ _ _ _ => c
  | .equery c _ _ _ => c
  | .eexec c _ _ _ => c

/-- `fulfilled` (expectations.go 38-40). -/
def fulfilled (e : Exp) : Bool :=
  e.common.triggered

def errNote : Option GoError → String
  | none => ""
  | some (.user id) => ", which should return error: user error " ++ toString id
  | some (.errMsg s) => ", which should return error: " ++ s
  | some .cancelled => ", which should return error: canceling query due to user request"
  | some .eof => ", which should return error: EOF"

/-- The `String` methods of the expectation types (abbreviated: the SQL
pattern and the programmed error are rendered, the argument and payload
dumps are elided). -/
def expString : Exp → String
  | .eclose c => "ExpectedClose => expecting database Close" ++ errNote c.err
  | .ebegin c _ => "ExpectedBegin => expecting database transaction Begin" ++ errNote c.err
  | .ecommit c => "ExpectedCommit => expecting transaction Commit" ++ errNote c.err
  | .erollback c => "ExpectedRollback => expecting transaction Rollback" ++ errNote c.err
  | .eprepare c pat _ _ _ _ =>
      "ExpectedPrepare => expecting Prepare statement which: - matches sql: '"
        ++ pat.pat ++ "'" ++ errNote c.err
  | .equery c qb _ _ =>
      "ExpectedQuery => expecting Query or QueryRow which: - matches sql: '"
        ++ qb.sqlRegex.pat ++ "'" ++ errNote c.err
  | .eexec c qb _ _ =>
      "ExpectedExec => expecting Exec which: - matches sql: '"
        ++ qb.sqlRegex.pat ++ "'" ++ errNote c.err

/-- Rendering of an actual argument list (the `%+v` of the error messages,
abbreviated). -/
def renderRVal : RVal → String
  | .vint _ v => toString v
  | .vuint _ v => toString v
  | .vfloat _ v => "float " ++ toString v
  | .vstring s => s
  | .vother _ ty p => ty ++ " " ++ toString p

def renderArgs (args : List RVal) : String :=
  "[" ++ String.intercalate " " (args.map renderRVal) ++ "]"

/-- `sqlmock` (sqlmock.go 78-85): the ordered flag and the expectation
queue (the dsn / driver bookkeeping plays no part in matching). -/
structure Mock where
  ordered : Bool
  expected : List Exp

/-- Mark the expectation as triggered (`expected.triggered = true`). -/
def setTriggered : Exp → Exp
  | .eclose c => .eclose { c with triggered := true }
  | .ebegin c d => .ebegin { c with triggered := true } d
  | .ecommit c => .ecommit { c with triggered := true }
  | .erollback c => .erollback { c with triggered := true }
  | .eprepare c p ce mb wc d => .eprepare { c with triggered := true } p ce mb wc d
  | .equery c q r d => .equery { c with triggered := true } q r d
  | .eexec c q r d => .eexec { c with triggered := true } q r d

def setTriggeredAt : List Exp → Nat → List Exp
  | [], _ => []
  | e :: rest, 0 => setTriggered e :: rest
  | e :: rest, n + 1 => e :: setTriggeredAt rest n

/-- Result of the selection walk over the queue: the selected candidate, an
ordered-mode wrong-next failure (carrying the next expectation's
description), no match with the number of fulfilled expectations seen, or
a panic escaping the walk (an argument-comparison reflect fault in the
unordered exec/query scans). -/
inductive FindRes (κ : Type)
  | found (sel : κ)
  | wrongNext (nextStr : String)
  | noMatch (cnt : Nat)
  | panicked

/-- The candidate data captured when the walk breaks at an `ExpectedExec`. -/
structure ExecSel where
  i : Nat
  q : QueryBased
  result : Option ResultData
  c : CommonExp
  delay : Nat

/-- The selection loop of `exec` (sqlmock.go 244-266): fulfilled
expectations are skipped and counted; in ordered mode the walk breaks at the
first pending expectation (failing if it is not an `ExpectedExec`); in
unordered mode pending expectations that are not an `ExpectedExec` or that
`attemptMatch` definitely rejects are skipped without being marked, while
a reflect panic inside `attemptMatch` escapes the whole walk. -/
def findExec (ordered : Bool) (q : String) (args : List RVal) :
    List Exp → Nat → Nat → FindRes ExecSel
  | [], _, cnt => .noMatch cnt
  | e :: rest, i, cnt =>
    if fulfilled e then findExec ordered q args rest (i + 1) (cnt + 1)
    else
      match e with
      | .eexec c qb res delay =>
        if ordered then .found ⟨i, qb, res, c, delay⟩
        else
          match attemptMatch qb q args with
          | .error _ => .panicked
          | .ok true => .found ⟨i, qb, res, c, delay⟩
          | .ok false => findExec ordered q args rest (i + 1) cnt
      | other =>
        if ordered then .wrongNext (expString other)
        else findExec ordered q args rest (i + 1) cnt

/-- The candidate data captured when the walk breaks at an `ExpectedQuery`. -/
structure QuerySel where
  i : Nat
  q : QueryBased
  rows : Option Nat
  c : CommonExp
  delay : Nat

/-- The selection loop of `query` (sqlmock.go 401-423), the `ExpectedQuery`
twin of `findExec`. -/
def findQuery (ordered : Bool) (q : String) (args : List RVal) :
    List Exp → Nat → Nat → FindRes QuerySel
  | [], _, cnt => .noMatch cnt
  | e :: rest, i, cnt =>
    if fulfilled e then findQuery ordered q args rest (i + 1) (cnt + 1)
    else
      match e with
      | .equery c qb rows delay =>
        if ordered then .found ⟨i, qb, rows, c, delay⟩
        else
          match attemptMatch qb q args with
          | .error _ => .panicked
          | .ok true => .found ⟨i, qb, rows, c, delay⟩
          | .ok false => findQuery ordered q args rest (i + 1) cnt
      | other =>
        if ordered then .wrongNext (expString other)
        else findQuery ordered q args rest (i + 1) cnt

/-- Outcome of a driver call: either an uncaught panic escaping to the
caller, or the Go pair of a (possibly nil) selected expectation and a
(possibly nil) error. -/
inductive DriverRet (α : Type)
  | panicked
  | ret (ex : Option α) (err : Option GoError)

/-- What `exec` hands back to its callers on success. -/
structure ExecOut where
  result : ResultData
  delay : Nat
  deriving DecidableEq, Repr

def execWrongNextMsg (q : String) (args : List RVal) (s : String) : String :=
  "call to ExecQuery '" ++ q ++ "' with args " ++ renderArgs args
    ++ ", was not expected, next expectation is: " ++ s

def execNoMatchMsg (q : String) (args : List RVal) (allFulfilled : Bool) : String :=
  let base := "call to ExecQuery '" ++ q ++ "' with args " ++ renderArgs args
    ++ " was not expected"
  if allFulfilled then "all expectations were already fulfilled, " ++ base else base

def execRegexMsg (q : String) (pat : String) : String :=
  "ExecQuery '" ++ q ++ "', does not match regex '" ++ pat ++ "'"

def execArgsMsg (q : String) : String :=
  "ExecQuery '" ++ q ++ "', arguments do not match"

def execMustReturnMsg (q : String) (args : List RVal) : String :=
  "ExecQuery '" ++ q ++ "' with args " ++ renderArgs args
    ++ ", must return a database/sql/driver.Result, but it was not set for expectation"

/-- `exec` (sqlmock.go 239-294).  After the selection walk the SQL and the
arguments of the candidate are re-checked; the direct `argsMatches` call has
no `recover`, so a reflect panic there escapes (`.panicked`).  The triggered
flag is set before the programmed error / missing result checks. -/
def exec (m : Mock) (query0 : String) (args : List RVal) : DriverRet ExecOut × Mock :=
  let q := stripQuery query0
  match findExec m.ordered q args m.expected 0 0 with
  | .panicked => (.panicked, m)
  | .wrongNext s => (.ret none (some (.errMsg (execWrongNextMsg q args s))), m)
  | .noMatch cnt =>
      (.ret none (some (.errMsg (execNoMatchMsg q args (cnt = m.expected.length)))), m)
  | .found sel =>
      if queryMatches sel.q q then
        match argsMatches sel.q.args args with
        | .error _ => (.panicked, m)
        | .ok false => (.ret none (some (.errMsg (execArgsMsg q))), m)
        | .ok true =>
          let m2 : Mock := ⟨m.ordered, setTriggeredAt m.expected sel.i⟩
          match sel.c.err with
          | some er => (.ret none (some er), m2)
          | none =>
            match sel.result with
            | none => (.ret none (some (.errMsg (execMustReturnMsg q args))), m2)
            | some r => (.ret (some ⟨r, sel.delay⟩) none, m2)
      else (.ret none (some (.errMsg (execRegexMsg q sel.q.sqlRegex.pat))), m)

/-- What `query` hands back to its callers on success. -/
structure QueryOut where
  rows : Nat
  delay : Nat
  deriving DecidableEq, Repr

def queryWrongNextMsg (q : String) (args : List RVal) (s : String) : String :=
  "call to Query '" ++ q ++ "' with args " ++ renderArgs args
    ++ ", was not expected, next expectation is: " ++ s

def queryNoMatchMsg (q : String) (args : List RVal) (allFulfilled : Bool) : String :=
  let base := "call to Query '" ++ q ++ "' with args " ++ renderArgs args
    ++ " was not expected"
  if allFulfilled then "all expectations were already fulfilled, " ++ base else base

def queryRegexMsg (q : String) (pat : String) : String :=
  "Query '" ++ q ++ "', does not match regex [" ++ pat ++ "]"

def queryArgsMsg (q : String) : String :=
  "Query '" ++ q ++ "', arguments do not match"

def queryMustReturnMsg (q : String) (args : List RVal) : String :=
  "Query '" ++ q ++ "' with args " ++ renderArgs args
    ++ ", must return a database/sql/driver.Rows, but it was not set for expectation"

/-- `query` (sqlmock.go 396-452), the `ExpectedQuery` twin of `exec`. -/
def query (m : Mock) (query0 : String) (args : List RVal) : DriverRet QueryOut × Mock :=
  let q := stripQuery query0
  match findQuery m.ordered q args m.expected 0 0 with
  | .panicked => (.panicked, m)
  | .wrongNext s => (.ret none (some (.errMsg (queryWrongNextMsg q args s))), m)
  | .noMatch cnt =>
      (.ret none (some (.errMsg (queryNoMatchMsg q args (cnt = m.expected.length)))), m)
  | .found sel =>
      if queryMatches sel.q q then
        match argsMatches sel.q.args args with
        | .error _ => (.panicked, m)
        | .ok false => (.ret none (some (.errMsg (queryArgsMsg q))), m)
        | .ok true =>
          let m2 : Mock := ⟨m.ordered, setTriggeredAt m.expected sel.i⟩
          match sel.c.err with
          | some er => (.ret none (some er), m2)
          | none =>
            match sel.rows with
            | none => (.ret none (some (.errMsg (queryMustReturnMsg q args))), m2)
            | some rs => (.ret (some ⟨rs, sel.delay⟩) none, m2)
      else (.ret none (some (.errMsg (queryRegexMsg q sel.q.sqlRegex.pat))), m)

structure BeginSel where
  i : Nat
  c : CommonExp
  delay : Nat

/-- The selection loop of `begin` (sqlmock.go 183-199): the walk breaks at
the first pending `ExpectedBegin` in both modes; a pending expectation of
another kind fails the call only in ordered mode.  No argument comparison
is involved, so this walk never produces `.panicked`. -/
def findBegin (ordered : Bool) : List Exp → Nat → Nat → FindRes BeginSel
  | [], _, cnt => .noMatch cnt
  | e :: rest, i, cnt =>
    if fulfilled e then findBegin ordered rest (i + 1) (cnt + 1)
    else
      match e with
      | .ebegin c delay => .found ⟨i, c, delay⟩
      | other =>
        if ordered then .wrongNext (expString other)
        else findBegin ordered rest (i + 1) cnt

def beginWrongNextMsg (s : String) : String :=
  "call to database transaction Begin, was not expected, next expectation is: " ++ s

def beginNoMatchMsg (allFulfilled : Bool) : String :=
  let base := "call to database transaction Begin was not expected"
  if allFulfilled then "all expectations were already fulfilled, " ++ base else base

/-- `begin` (sqlmock.go 179-212): on selection the expectation is triggered
and the pair `(expected, expected.err)` is returned — the selected
expectation is non-nil even when a programmed error is returned. -/
def begin (m : Mock) : DriverRet Nat × Mock :=
  match findBegin m.ordered m.expected 0 0 with
  | .panicked => (.panicked, m)
  | .wrongNext s => (.ret none (some (.errMsg (beginWrongNextMsg s))), m)
  | .noMatch cnt =>
      (.ret none (some (.errMsg (beginNoMatchMsg (cnt = m.expected.length)))), m)
  | .found sel =>
      (.ret (some sel.delay) sel.c.err, ⟨m.ordered, setTriggeredAt m.expected sel.i⟩)

structure PrepareSel where
  i : Nat
  sqlRegex : SqlPat
  c : CommonExp
  delay : Nat

/-- The selection loop of `prepare` (sqlmock.go 322-346): ordered mode
breaks at the first pending expectation; unordered mode selects the first
pending `ExpectedPrepare` whose regex matches, skipping the others.  No
argument comparison is involved, so this walk never produces `.panicked`. -/
def findPrepare (ordered : Bool) (q : String) : List Exp → Nat → Nat → FindRes PrepareSel
  | [], _, cnt => .noMatch cnt
  | e :: rest, i, cnt =>
    if fulfilled e then findPrepare ordered q rest (i + 1) (cnt + 1)
    else
      match e with
      | .eprepare c pat _ _ _ delay =>
        if ordered then .found ⟨i, pat, c, delay⟩
        else if pat.test q then .found ⟨i, pat, c, delay⟩
        else findPrepare ordered q rest (i + 1) cnt
      | other =>
        if ordered then .wrongNext (expString other)
        else findPrepare ordered q rest (i + 1) cnt

def prepareWrongNextMsg (q : String) (s : String) : String :=
  "call to Prepare statement with query '" ++ q
    ++ "', was not expected, next expectation is: " ++ s

def prepareNoMatchMsg (q : String) (allFulfilled : Bool) : String :=
  let base := "call to Prepare '" ++ q ++ "' query was not expected"
  if allFulfilled then "all expectations were already fulfilled, " ++ base else base

def prepareRegexMsg (q : String) (pat : String) : String :=
  "Prepare query string '" ++ q ++ "', does not match regex [" ++ pat ++ "]"

/-- `prepare` (sqlmock.go 315-362): the regex is re-checked after the walk;
on selection the expectation is triggered and `(expected, expected.err)` is
returned (non-nil even with a programmed error). -/
def prepare (m : Mock) (query0 : String) : DriverRet Nat × Mock :=
  let q := stripQuery query0
  match findPrepare m.ordered q m.expected 0 0 with
  | .panicked => (.panicked, m)
  | .wrongNext s => (.ret none (some (.errMsg (prepareWrongNextMsg q s))), m)
  | .noMatch cnt =>
      (.ret none (some (.errMsg (prepareNoMatchMsg q (cnt = m.expected.length)))), m)
  | .found sel =>
      if sel.sqlRegex.test q then
        (.ret (some sel.delay) sel.c.err, ⟨m.ordered, setTriggeredAt m.expected sel.i⟩)
      else (.ret none (some (.errMsg (prepareRegexMsg q sel.sqlRegex.pat))), m)

/-- `QueryContext` (sqlmock_go18.go 19-39).  The `select` racing the delay
against the context is resolved by the oracle `cancelFirst`: `true` means
the context was cancelled before the delay elapsed.  The race only happens
when `query` returned a non-nil expectation — which it does only for a
successful rows payload. -/
def QueryContext (m : Mock) (q : String) (args : List RVal) (cancelFirst : Bool) :
    DriverRet Nat × Mock :=
  match query m q args with
  | (.panicked, m2) => (.panicked, m2)
  | (.ret ex err, m2) =>
    match ex with
    | some out =>
      if cancelFirst then (.ret none (some .cancelled), m2)
      else
        match err with
        | some er => (.ret none (some er), m2)
        | none => (.ret (some out.rows) none, m2)
    | none => (.ret none err, m2)

/-- `ExecContext` (sqlmock_go18.go 42-62), the exec twin of `QueryContext`. -/
def ExecContext (m : Mock) (q : String) (args : List RVal) (cancelFirst : Bool) :
    DriverRet ResultData × Mock :=
  match exec m q args with
  | (.panicked, m2) => (.panicked, m2)
  | (.ret ex err, m2) =>
    match ex with
    | some out =>
      if cancelFirst then (.ret none (some .cancelled), m2)
      else
        match err with
        | some er => (.ret none (some er), m2)
        | none => (.ret (some out.result) none, m2)
    | none => (.ret none err, m2)

/-- `BeginTx` (sqlmock_go18.go 65-80): `begin` returns a non-nil
expectation even with a programmed error, so the delay/cancellation race is
always entered once an expectation was selected. -/
def BeginTx (m : Mock) (cancelFirst : Bool) : DriverRet Unit × Mock :=
  match begin m with
  | (.ret ex err, m2) =>
    match ex with
    | some _ =>
      if cancelFirst then (.ret none (some .cancelled), m2)
      else
        match err with
        | some er => (.ret none (some er), m2)
        | none => (.ret (some ()) none, m2)
    | none => (.ret none err, m2)
  | (.panicked, m2) => (.panicked, m2)

/-- `PrepareContext` (sqlmock_go18.go 83-98), same shape as `BeginTx`. -/
def PrepareContext (m : Mock) (q : String) (cancelFirst : Bool) : DriverRet Unit × Mock :=
  match prepare m q with
  | (.ret ex err, m2) =>
    match ex with
    | some _ =>
      if cancelFirst then (.ret none (some .cancelled), m2)
      else
        match err with
        | some er => (.ret none (some er), m2)
        | none => (.ret (some ()) none, m2)
    | none => (.ret none err, m2)
  | (.panicked, m2) => (.panicked, m2)

/-- `ExpectationsWereMet` (sqlmock.go 152-166): the first expectation that
is not fulfilled — or a fulfilled prepare whose required close did not
happen — is reported. -/
def expectationsWereMet : List Exp → Option GoError
  | [] => none
  | e :: rest =>
    if fulfilled e then
      match e with
      | .eprepare _ _ _ mustBeClosed wasClosed _ =>
        if mustBeClosed && !wasClosed then
          some (.errMsg ("expected prepared statement to be closed, but it was not: "
            ++ expString e))
        else expectationsWereMet rest
      | _ => expectationsWereMet rest
    else
      some (.errMsg ("there is a remaining expectation which was not matched: "
        ++ expString e))

/-- Canonical `driver.Value`s as stored in fabricated rows (rows.go): the
types `database/sql/driver` admits (int64, float64, bool, []byte, string,
time.Time, nil), with floats and times carried as abstract codes. -/
inductive DV
  | dint (v : Int)
  | dfloat (v : Int)
  | dbool (b : Bool)
  | dbytes (bs : List Nat)
  | dstring (s : String)
  | dtime (t : Nat)
  | dnil
  deriving DecidableEq, Repr

/-- Test-authored input values handed to `AddRow`: the width-tagged numerics
the default converter canonicalises, the already-canonical values, and
`badv`, a value of a type the converter rejects (chan, func, ...). -/
inductive InVal
  | iv (w : Nat) (v : Int)
  | uv (w : Nat) (v : Nat)
  | fv (w : Nat) (v : Int)
  | sv (s : String)
  | bv (bs : List Nat)
  | boolv (b : Bool)
  | timev (t : Nat)
  | nilv
  | badv (ty : String)
  deriving DecidableEq, Repr

/-- `driver.DefaultParameterConverter.ConvertValue`: signed integers widen
to int64, unsigned ones are accepted below 2^63, canonical values pass
through, unsupported types error. -/
def convertValue : InVal → Except String DV
  | .iv _ v => .ok (.dint v)
  | .uv _ v =>
      if v < 2 ^ 63 then .ok (.dint (Int.ofNat v))
      else .error "uint64 values with high bit set are not supported"
  | .fv _ v => .ok (.dfloat v)
  | .sv s => .ok (.dstring s)
  | .bv bs => .ok (.dbytes bs)
  | .boolv b => .ok (.dbool b)
  | .timev t => .ok (.dtime t)
  | .nilv => .ok .dnil
  | .badv ty => .error ("unsupported type " ++ ty)

/-- `Rows` (rows.go 164-172): columns, stored rows, the iteration cursor,
the per-row error map and the close error. -/
structure Rows where
  cols : List String
  rows : List (List DV) := []
  pos : Nat := 0
  nextErr : List (Nat × GoError) := []
  closeErr : Option GoError := none
  deriving DecidableEq, Repr

instance : Inhabited Rows := ⟨{ cols := [] }⟩

/-- `NewRows` (rows.go 187-199). -/
def NewRows (columns : List String) : Rows :=
  { cols := columns }

/-- Go map lookup for the `nextErr` map (later writes shadow earlier ones). -/
def mapLookup : List (Nat × GoError) → Nat → Option GoError
  | [], _ => none
  | (k, e) :: rest, n => if k = n then some e else mapLookup rest n

/-- `RowError` (rows.go 231-234). -/
def RowError (r : Rows) (row : Nat) (err : GoError) : Rows :=
  { r with nextErr := (row, err) :: r.nextErr }

/-- `CloseError` (rows.go 223-226). -/
def CloseError (r : Rows) (err : GoError) : Rows :=
  { r with closeErr := some err }

/-- The conversion loop of `AddRow`: first conversion error aborts (the Go
code panics with it). -/
def convRow : List InVal → Except String (List DV)
  | [] => .ok []
  | v :: rest =>
    match convertValue v with
    | .error e => .error e
    | .ok d =>
      match convRow rest with
      | .error e => .error e
      | .ok ds => .ok (d :: ds)

/-- `AddRow` (rows.go 240-263): a value count different from the column
count panics (modelled as `.error`), as does a conversion failure;
otherwise the converted row is appended. -/
def AddRow (r : Rows) (values : List InVal) : Except String Rows :=
  if values.length = r.cols.length then
    match convRow values with
    | .error e => .error e
    | .ok row => .ok { r with rows := r.rows ++ [row] }
  else .error "Expected number of values to match number of columns"

/-- The poison constant `invalidate` (rows.go 13). -/
def invalidateStr : String := "☠☠☠ MEMORY OVERWRITTEN ☠☠☠ "

/-- Its UTF-8 bytes, as written over raw buffers. -/
def poisonBytes : List Nat :=
  invalidateStr.toUTF8.toList.map (fun b => b.toNat)

/-- `copy(r, bytes.Repeat(b, len(r)/len(b)+1))`: the buffer keeps its
length and its content becomes the repeating poison pattern truncated to
that length. -/
def poisonFill (len : Nat) : List Nat :=
  (List.flatten (List.replicate (len / poisonBytes.length + 1) poisonBytes)).take len

/-- The state of a `rowSets` value (rows.go 26-31) together with the buffer
heap that carries the mutable raw byte buffers handed out by `Next`:
`raw` holds the heap indices of the tracked buffers, and
`rowsWereClosed` is the flag `Close` sets on the owning `ExpectedQuery`. -/
structure RState where
  sets : List Rows
  pos : Nat := 0
  raw : List Nat := []
  rowsWereClosed : Bool := false
  heap : List (List Nat) := []

def getSet (st : RState) : Rows :=
  st.sets.getD st.pos default

def setSet (st : RState) (r : Rows) : RState :=
  { st with sets := st.sets.set st.pos r }

/-- Poison every heap entry whose index is tracked (`i` is the index of the
first entry of the argument list in the full heap). -/
def poisonHeapAux (ids : List Nat) : List (List Nat) → Nat → List (List Nat)
  | [], _ => []
  | b :: rest, i =>
    (if i ∈ ids then poisonFill b.length else b) :: poisonHeapAux ids rest (i + 1)

/-- `invalidateRaw` (rows.go 144-152): overwrite the content of every
tracked buffer in place with the poison pattern, then clear the tracking
list. -/
def invalidateRaw (st : RState) : RState :=
  { st with heap := poisonHeapAux st.raw st.heap 0, raw := [] }

/-- A cell as written into `dest` by `Next`: either a reference to a heap
buffer (a raw `[]byte` handed out zero-copy) or a plain value copy. -/
inductive DestCell
  | buf (id : Nat)
  | val (v : DV)
  deriving DecidableEq, Repr

/-- `rawBytes` (rows.go 130-140) decides whether a cell is a non-empty byte
slice and hence handed out via a fresh shared buffer. -/
def rawBytesOf : DV → Option (List Nat)
  | .dbytes bs => if bs.length = 0 then none else some bs
  | _ => none

/-- The `for i, col := range r.rows[r.pos-1]` loop of `Next`: non-empty byte
cells allocate a fresh buffer (a copy of the cell), which is tracked in
`raw`; every other cell is written to `dest` as a plain value. -/
def handOut : List DV → RState → List DestCell × RState
  | [], st => ([], st)
  | c :: rest, st =>
    match rawBytesOf c with
    | some bs =>
      let id := st.heap.length
      let st2 := { st with heap := st.heap ++ [bs], raw := st.raw ++ [id] }
      let hd := handOut rest st2
      (.buf id :: hd.1, hd.2)
    | none =>
      let hd := handOut rest st
      (.val c :: hd.1, hd.2)

/-- `Next` (rows.go 44-62): advance the cursor, invalidate the previously
handed-out buffers, then either report `io.EOF` or deliver the row together
with its `nextErr` entry. -/
def next (st : RState) : (List DestCell × Option GoError) × RState :=
  let r := getSet st
  let r2 := { r with pos := r.pos + 1 }
  let st2 := invalidateRaw (setSet st r2)
  if r2.rows.length < r2.pos then (([], some .eof), st2)
  else
    let row := r2.rows.getD (r2.pos - 1) []
    let hd := handOut row st2
    ((hd.1, mapLookup r2.nextErr (r2.pos - 1)), hd.2)

/-- `Close` (rows.go 37-41): one final invalidation pass, mark the row set
closed on its expectation, and return the programmed close error
unconditionally. -/
def close (st : RState) : Option GoError × RState :=
  let st2 := invalidateRaw st
  ((getSet st).closeErr, { st2 with rowsWereClosed := true })

/-- Modelled from the spec: the `database/sql` client-side iteration state
over a driver row set — this code lives in the standard library, not in
this repository.  The client closes the rows itself as soon as the driver's
`Next` reports an error (in particular `io.EOF`, the natural end), records
the error, and a later explicit `Close` on an already-closed rows returns
no error ("reaching natural end first suppresses closeError, mirroring
common client-library close semantics"). -/
structure ClientRows where
  st : RState
  closed : Bool := false
  lasterr : Option GoError := none

/-- Modelled from the spec: one client-side `Rows.Next` step — a closed
rows yields nothing; a driver error (EOF or a row error) auto-closes the
rows, discarding the driver close error. -/
def clientNext (c : ClientRows) : Option (List DestCell) × ClientRows :=
  if c.closed then (none, c)
  else
    let n := next c.st
    match n.1.2 with
    | none => (some n.1.1, { c with st := n.2 })
    | some e => (none, { st := (close n.2).2, closed := true, lasterr := some e })

/-- Modelled from the spec: the client-side `Rows.Close` — a no-op
returning nil once the rows are closed, otherwise the driver close result. -/
def clientClose (c : ClientRows) : Option GoError × ClientRows :=
  if c.closed then (none, c)
  else ((close c.st).1, { c with st := (close c.st).2, closed := true })

/-- Iterated client advance. -/
def clientIter (c : ClientRows) : Nat → ClientRows
  | 0 => c
  | n + 1 => (clientNext (clientIter c n)).2

/-- Iterated driver advance (state part only). -/
def driverIter (st : RState) : Nat → RState
  | 0 => st
  | n + 1 => (next (driverIter st n)).2

/-- What `ExpectationsWereMet` requires of a single expectation. -/
def metOk : Exp → Bool
  | .eprepare c _ _ mustBeClosed wasClosed _ => c.triggered && !(mustBeClosed && !wasClosed)
  | e => fulfilled e

/-- The unordered exec scan's verdict on a pending expectation: `.ok true`
selects it, `.ok false` skips it, `.error` panics the scan. -/
def execCandidate (q : String) (args : List RVal) : Exp → Except Unit Bool
  | .eexec _ qb _ _ => attemptMatch qb q args
  | _ => .ok false

/-- The unordered query scan's verdict on a pending expectation: `.ok true`
selects it, `.ok false` skips it, `.error` panics the scan. -/
def queryCandidate (q : String) (args : List RVal) : Exp → Except Unit Bool
  | .equery _ qb _ _ => attemptMatch qb q args
  | _ => .ok false

/-- Concrete fixture: a compiled pattern matching exactly "SELECT". -/
def patSelect : SqlPat := ⟨"^SELECT$", fun s => s == "SELECT"⟩

/-- Concrete fixture: a compiled pattern matching exactly "UPDATE users". -/
def patUpdate : SqlPat := ⟨"^UPDATE users$", fun s => s == "UPDATE users"⟩

/-- Concrete fixture for the ordered-mode panic: one pending exec
expectation declaring the string argument "5". -/
def c4fix : Mock :=
  ⟨true, [.eexec ⟨false, none⟩ ⟨patUpdate, some [.val (.vstring "5")]⟩
    (some ⟨0, 1, none⟩) 0]⟩

/-- Concrete fixture for the unordered-scan panic: unordered mode, one
pending exec expectation declaring the string argument "5". -/
def c7fix : Mock :=
  ⟨false, [.eexec ⟨false, none⟩ ⟨patUpdate, some [.val (.vstring "5")]⟩
    (some ⟨0, 1, none⟩) 0]⟩

/-- Concrete fixture for the cancellation race: one pending query
expectation with a programmed error and a positive delay. -/
def c8fix : Mock :=
  ⟨true, [.equery ⟨false, some (.user 1)⟩ ⟨patSelect, none⟩ (some 0) 5]⟩

/-- Concrete fixture: two rows with a row error injected at index 0. -/
def c5fixRows : Rows :=
  ⟨["a"], [[.dint 1], [.dint 2]], 0, [(0, .user 7)], none⟩

def c5fixState : RState := ⟨[c5fixRows], 0, [], false, []⟩

/-- Concrete fixture: a state holding one previously handed-out tracked
buffer of three bytes. -/
def c2fixState : RState :=
  ⟨[⟨["a"], [[.dint 1]], 0, [], none⟩], 0, [0], false, [[1, 2, 3]]⟩

/-!  Theorems.  -/

/-- Claim C9: for every row set, `AddRow` with a value count different from
the column count fails loudly, while a matching count with values accepted
by the value converter succeeds and appends a row holding exactly the
converted inputs, reproducible on read-back. -/
theorem c9_addRow_arity (r : Rows) (values : List InVal) :
    (values.length ≠ r.cols.length →
      AddRow r values = .error "Expected number of values to match number of columns")
    ∧ (∀ ds, values.length = r.cols.length → convRow values = .ok ds →
        AddRow r values = .ok { r with rows := r.rows ++ [ds] }
        ∧ (AddRow r values).map (fun r2 => r2.rows.getLast?) = .ok (some ds)) := by
  constructor
  · intro h
    simp [AddRow, h]
  · intro ds hlen hconv
    have hok : AddRow r values = .ok { r with rows := r.rows ++ [ds] } := by
      simp [AddRow, hlen, hconv]
    refine ⟨hok, ?_⟩
    simp [hok, Except.map, List.getLast?_concat]

theorem c9_witness :
    (AddRow (NewRows ["a", "b"]) [InVal.iv 0 5]
        = .error "Expected number of values to match number of columns")
    ∧ AddRow (NewRows ["a", "b"]) [InVal.iv 0 5, InVal.sv "x"]
        = .ok { NewRows ["a", "b"] with rows := (NewRows ["a", "b"]).rows
            ++ [[DV.dint 5, DV.dstring "x"]] } :=
  ⟨(c9_addRow_arity (NewRows ["a", "b"]) [InVal.iv 0 5]).1 (by decide),
   ((c9_addRow_arity (NewRows ["a", "b"]) [InVal.iv 0 5, InVal.sv "x"]).2
      [DV.dint 5, DV.dstring "x"] (by decide) (by rfl)).1⟩

/-- Claim C6 counterexample: the actual argument is a string, the declared
value an int64, so their reflected kinds (and kind classes) differ — yet
`argsMatches` reports a match, because the string comparison uses the
reflect `String` accessor, which renders the non-string declared value as
the placeholder `<int64 Value>`. -/
theorem c6_counterexample :
    kindClass (RVal.vstring "<int64 Value>") ≠ kindClass (RVal.vint 64 7)
    ∧ rkind (RVal.vstring "<int64 Value>") ≠ rkind (RVal.vint 64 7)
    ∧ argsMatches (some [EArg.val (RVal.vint 64 7)]) [RVal.vstring "<int64 Value>"]
        = Except.ok true := by
  refine ⟨by decide, by decide, ?_⟩
  rfl

/-- Claim C6 (amended): per-position value comparison of a non-matcher
declared value: numerics of the same class match by numeric equality
irrespective of width, strings by exact equality, all other kinds by kind
only; a declared value of a different kind class never matches — except
when the actual value is a string equal to the placeholder text the
reflect `String` accessor produces for the declared value. -/
theorem c6_kind_comparison (a v : RVal) :
    (∀ wa va wv vv, a = RVal.vint wa va → v = RVal.vint wv vv →
        (matchArg (.val a) v = .ok true ↔ va = vv))
    ∧ (∀ wa va wv vv, a = RVal.vuint wa va → v = RVal.vuint wv vv →
        (matchArg (.val a) v = .ok true ↔ va = vv))
    ∧ (∀ wa va wv vv, a = RVal.vfloat wa va → v = RVal.vfloat wv vv →
        (matchArg (.val a) v = .ok true ↔ va = vv))
    ∧ (∀ sa sv, a = RVal.vstring sa → v = RVal.vstring sv →
        (matchArg (.val a) v = .ok true ↔ sv = sa))
    ∧ (∀ k ta pa tv pv, a = RVal.vother k ta pa → v = RVal.vother k tv pv →
        matchArg (.val a) v = .ok true)
    ∧ (kindClass a ≠ kindClass v →
        (matchArg (.val a) v = .ok true ↔ ∃ s, v = RVal.vstring s ∧ s = reflectString a)) := by
  refine ⟨?_, ?_, ?_, ?_, ?_, ?_⟩
  · rintro wa va wv vv rfl rfl
    simp [matchArg, eq_comm]
  · rintro wa va wv vv rfl rfl
    simp [matchArg, eq_comm]
  · rintro wa va wv vv rfl rfl
    simp [matchArg, eq_comm]
  · rintro sa sv rfl rfl
    simp [matchArg, reflectString]
  · rintro k ta pa tv pv rfl rfl
    simp [matchArg, rkind]
  · intro hk
    cases v with
    | vint wv vv =>
      cases a <;> simp_all [matchArg, kindClass]
    | vuint wv vv =>
      cases a <;> simp_all [matchArg, kindClass]
    | vfloat wv vv =>
      cases a <;> simp_all [matchArg, kindClass]
    | vstring s =>
      simp only [matchArg, Except.ok.injEq, decide_eq_true_eq]
      constructor
      · intro h
        exact ⟨s, rfl, h⟩
      · rintro ⟨s2, hv, hs⟩
        cases hv
        exact hs
    | vother kv tv pv =>
      cases a <;> simp_all [matchArg, kindClass, rkind] <;> omega

theorem c6_witness :
    (matchArg (.val (RVal.vint 32 5)) (RVal.vint 64 5) = .ok true ↔ (5 : Int) = 5)
    ∧ (matchArg (.val (RVal.vint 32 6)) (RVal.vuint 64 6) = .ok true ↔
        ∃ s, RVal.vuint 64 6 = RVal.vstring s ∧ s = reflectString (RVal.vint 32 6)) :=
  ⟨(c6_kind_comparison (RVal.vint 32 5) (RVal.vint 64 5)).1 32 5 64 5 rfl rfl,
   (c6_kind_comparison (RVal.vint 32 6) (RVal.vuint 64 6)).2.2.2.2.2 (by decide)⟩

/-- Claim C5 counterexample: with two rows and an injected error at row
index 0, the first advance delivers row 0 with the injected error, but the
advance after the error still delivers row 1 — the driver does not stop. -/
theorem c5_counterexample :
    (next c5fixState).1 = ([DestCell.val (DV.dint 1)], some (GoError.user 7))
    ∧ (next (next c5fixState).2).1 = ([DestCell.val (DV.dint 2)], none) := by
  constructor <;> rfl

/-- `attemptMatch` succeeds exactly when the SQL matches and the argument
comparison returns a definite match. -/
theorem attemptMatch_true_iff (e : QueryBased) (sql : String) (args : List RVal) :
    attemptMatch e sql args = .ok true ↔
      queryMatches e sql = true ∧ argsMatches e.args args = .ok true := by
  unfold attemptMatch
  by_cases h : queryMatches e sql
  · simp [h]
  · simp [h]

/-- Claim C4 counterexample: in ordered mode, with a declared string
argument and an actual int64 argument, the reflection fault inside
`argsMatches` escapes `exec` as an uncontrolled panic instead of being
converted into a no-match or error result. -/
theorem c4_counterexample :
    (exec c4fix "UPDATE users" [RVal.vint 64 5]).1 = DriverRet.panicked
    ∧ c4fix.ordered = true
    ∧ argsMatches (some [EArg.val (RVal.vstring "5")]) [RVal.vint 64 5] = .error () := by
  refine ⟨?_, rfl, rfl⟩
  rfl

/-- Fulfilled expectations at the front of the queue are skipped and
counted by the exec scan. -/
theorem findExec_append_fulfilled (ordered : Bool) (q : String) (args : List RVal)
    (pre rest : List Exp) (i cnt : Nat)
    (hpre : ∀ x ∈ pre, fulfilled x = true) :
    findExec ordered q args (pre ++ rest) i cnt
      = findExec ordered q args rest (i + pre.length) (cnt + pre.length) := by
  induction pre generalizing i cnt with
  | nil => simp
  | cons e pre ih =>
    have he : fulfilled e = true := hpre e (List.mem_cons_self e pre)
    have hrec := ih (i + 1) (cnt + 1) (fun x hx => hpre x (List.mem_cons_of_mem e hx))
    have h1 : i + 1 + pre.length = i + (e :: pre).length := by
      simp only [List.length_cons]
      omega
    have h2 : cnt + 1 + pre.length = cnt + (e :: pre).length := by
      simp only [List.length_cons]
      omega
    have hstep : findExec ordered q args ((e :: pre) ++ rest) i cnt
        = findExec ordered q args (pre ++ rest) (i + 1) (cnt + 1) := by
      simp [findExec, he]
    rw [hstep, hrec, h1, h2]

/-- Fulfilled expectations at the front of the queue are skipped and
counted by the query scan. -/
theorem findQuery_append_fulfilled (ordered : Bool) (q : String) (args : List RVal)
    (pre rest : List Exp) (i cnt : Nat)
    (hpre : ∀ x ∈ pre, fulfilled x = true) :
    findQuery ordered q args (pre ++ rest) i cnt
      = findQuery ordered q args rest (i + pre.length) (cnt + pre.length) := by
  induction pre generalizing i cnt with
  | nil => simp
  | cons e pre ih =>
    have he : fulfilled e = true := hpre e (List.mem_cons_self e pre)
    have hrec := ih (i + 1) (cnt + 1) (fun x hx => hpre x (List.mem_cons_of_mem e hx))
    have h1 : i + 1 + pre.length = i + (e :: pre).length := by
      simp only [List.length_cons]
      omega
    have h2 : cnt + 1 + pre.length = cnt + (e :: pre).length := by
      simp only [List.length_cons]
      omega
    have hstep : findQuery ordered q args ((e :: pre) ++ rest) i cnt
        = findQuery ordered q args (pre ++ rest) (i + 1) (cnt + 1) := by
      simp [findQuery, he]
    rw [hstep, hrec, h1, h2]

/-- Fulfilled expectations at the front of the queue are skipped and
counted by the begin scan. -/
theorem findBegin_append_fulfilled (ordered : Bool)
    (pre rest : List Exp) (i cnt : Nat)
    (hpre : ∀ x ∈ pre, fulfilled x = true) :
    findBegin ordered (pre ++ rest) i cnt
      = findBegin ordered rest (i + pre.length) (cnt + pre.length) := by
  induction pre generalizing i cnt with
  | nil => simp
  | cons e pre ih =>
    have he : fulfilled e = true := hpre e (List.mem_cons_self e pre)
    have hrec := ih (i + 1) (cnt + 1) (fun x hx => hpre x (List.mem_cons_of_mem e hx))
    have h1 : i + 1 + pre.length = i + (e :: pre).length := by
      simp only [List.length_cons]
      omega
    have h2 : cnt + 1 + pre.length = cnt + (e :: pre).length := by
      simp only [List.length_cons]
      omega
    have hstep : findBegin ordered ((e :: pre) ++ rest) i cnt
        = findBegin ordered (pre ++ rest) (i + 1) (cnt + 1) := by
      simp [findBegin, he]
    rw [hstep, hrec, h1, h2]

/-- Fulfilled expectations at the front of the queue are skipped and
counted by the prepare scan. -/
theorem findPrepare_append_fulfilled (ordered : Bool) (q : String)
    (pre rest : List Exp) (i cnt : Nat)
    (hpre : ∀ x ∈ pre, fulfilled x = true) :
    findPrepare ordered q (pre ++ rest) i cnt
      = findPrepare ordered q rest (i + pre.length) (cnt + pre.length) := by
  induction pre generalizing i cnt with
  | nil => simp
  | cons e pre ih =>
    have he : fulfilled e = true := hpre e (List.mem_cons_self e pre)
    have hrec := ih (i + 1) (cnt + 1) (fun x hx => hpre x (List.mem_cons_of_mem e hx))
    have h1 : i + 1 + pre.length = i + (e :: pre).length := by
      simp only [List.length_cons]
      omega
    have h2 : cnt + 1 + pre.length = cnt + (e :: pre).length := by
      simp only [List.length_cons]
      omega
    have hstep : findPrepare ordered q ((e :: pre) ++ rest) i cnt
        = findPrepare ordered q (pre ++ rest) (i + 1) (cnt + 1) := by
      simp [findPrepare, he]
    rw [hstep, hrec, h1, h2]

/-- In ordered mode the scan decides at the first pending expectation:
found if it is an exec expectation, a wrong-next failure otherwise. -/
theorem findExec_ordered_pending (q : String) (args : List RVal)
    (pre rest : List Exp) (e : Exp) (i cnt : Nat)
    (hpre : ∀ x ∈ pre, fulfilled x = true) (he : fulfilled e = false) :
    findExec true q args (pre ++ e :: rest) i cnt
      = match e with
        | .eexec c qb res d => .found ⟨i + pre.length, qb, res, c, d⟩
        | _ => .wrongNext (expString e) := by
  rw [findExec_append_fulfilled true q args pre (e :: rest) i cnt hpre]
  cases e <;> simp [findExec, he]

/-- In ordered mode the query scan decides at the first pending
expectation. -/
theorem findQuery_ordered_pending (q : String) (args : List RVal)
    (pre rest : List Exp) (e : Exp) (i cnt : Nat)
    (hpre : ∀ x ∈ pre, fulfilled x = true) (he : fulfilled e = false) :
    findQuery true q args (pre ++ e :: rest) i cnt
      = match e with
        | .equery c qb rs d => .found ⟨i + pre.length, qb, rs, c, d⟩
        | _ => .wrongNext (expString e) := by
  rw [findQuery_append_fulfilled true q args pre (e :: rest) i cnt hpre]
  cases e <;> simp [findQuery, he]

/-- In both modes the begin scan selects the first pending begin
expectation when the earlier queue entries are all fulfilled. -/
theorem findBegin_first_pending (ord : Bool) (pre rest : List Exp)
    (c : CommonExp) (d : Nat) (i cnt : Nat)
    (hpre : ∀ x ∈ pre, fulfilled x = true) (hc : c.triggered = false) :
    findBegin ord (pre ++ Exp.ebegin c d :: rest) i cnt
      = .found ⟨i + pre.length, c, d⟩ := by
  rw [findBegin_append_fulfilled ord pre (Exp.ebegin c d :: rest) i cnt hpre]
  simp [findBegin, fulfilled, Exp.common, hc]

/-- In both modes the prepare scan selects a first pending prepare
expectation whose pattern matches, when the earlier entries are all
fulfilled. -/
theorem findPrepare_first_pending (ord : Bool) (q : String) (pre rest : List Exp)
    (c : CommonExp) (pat : SqlPat) (ce : Option GoError) (mb wc : Bool) (d : Nat)
    (i cnt : Nat)
    (hpre : ∀ x ∈ pre, fulfilled x = true) (hc : c.triggered = false)
    (ht : pat.test q = true) :
    findPrepare ord q (pre ++ Exp.eprepare c pat ce mb wc d :: rest) i cnt
      = .found ⟨i + pre.length, pat, c, d⟩ := by
  rw [findPrepare_append_fulfilled ord q pre _ i cnt hpre]
  cases ord <;> simp [findPrepare, fulfilled, Exp.common, hc, ht]

/-- Triggering the expectation at the index right after a prefix. -/
theorem setTriggeredAt_append (pre rest : List Exp) (e : Exp) :
    setTriggeredAt (pre ++ e :: rest) pre.length = pre ++ setTriggered e :: rest := by
  induction pre with
  | nil => rfl
  | cons a pre ih => simp [setTriggeredAt, ih]

/-- `ExpectationsWereMet` succeeds exactly when every expectation is
fulfilled and every required statement close happened. -/
theorem wereMet_none_iff (l : List Exp) :
    expectationsWereMet l = none ↔ ∀ x ∈ l, metOk x = true := by
  induction l with
  | nil => simp [expectationsWereMet]
  | cons e rest ih =>
    by_cases hf : fulfilled e
    · cases e with
      | eprepare c pat ce mb wc d =>
        have hf' : c.triggered = true := by simpa [fulfilled, Exp.common] using hf
        by_cases hcl : (mb && !wc) = true
        · apply iff_of_false
          · simp [expectationsWereMet, hf, hcl]
          · intro hall
            have hm := hall _ (List.mem_cons_self _ rest)
            simp [metOk, hcl] at hm
        · have hcl' : (mb && !wc) = false := by simpa using hcl
          have hstep : expectationsWereMet (Exp.eprepare c pat ce mb wc d :: rest)
              = expectationsWereMet rest := by
            simp [expectationsWereMet, hf, hcl']
          rw [hstep, ih]
          constructor
          · intro h x hx
            rcases List.mem_cons.mp hx with rfl | hx2
            · simp [metOk, hf', hcl']
            · exact h x hx2
          · intro h x hx
            exact h x (List.mem_cons_of_mem _ hx)
      | eclose c => simp [expectationsWereMet, hf, ih, metOk]
      | ebegin c d => simp [expectationsWereMet, hf, ih, metOk]
      | ecommit c => simp [expectationsWereMet, hf, ih, metOk]
      | erollback c => simp [expectationsWereMet, hf, ih, metOk]
      | equery c qb rs d => simp [expectationsWereMet, hf, ih, metOk]
      | eexec c qb rs d => simp [expectationsWereMet, hf, ih, metOk]
    · apply iff_of_false
      · simp [expectationsWereMet, hf]
      · intro hall
        have hm := hall e (List.mem_cons_self e rest)
        have hful : fulfilled e = true := by
          cases e with
          | eprepare c pat ce mb wc d =>
            simp only [metOk, Bool.and_eq_true] at hm
            simpa [fulfilled, Exp.common] using hm.1
          | eclose c => simpa [metOk] using hm
          | ebegin c d => simpa [metOk] using hm
          | ecommit c => simpa [metOk] using hm
          | erollback c => simpa [metOk] using hm
          | equery c qb rs d => simpa [metOk] using hm
          | eexec c qb rs d => simpa [metOk] using hm
        exact hf hful

/-- Claim C1: in ordered mode, if the first still-pending expectation is
not of the requested kind (Exec resp. Query), the call fails immediately
with an error naming that expectation; if it is of the right kind but its
SQL regex does not match, or its declared arguments definitely fail to
match, the call also fails with a descriptive error.  In every case the
queue is unchanged (nothing is consumed) and the result does not depend on
the expectations after the first pending one. -/
theorem c1_ordered_first_pending_decides
    (pre rest : List Exp) (e : Exp) (q0 : String) (args : List RVal)
    (hpre : ∀ x ∈ pre, fulfilled x = true) (he : fulfilled e = false) :
    ((∀ c qb res d, e ≠ Exp.eexec c qb res d) →
      exec ⟨true, pre ++ e :: rest⟩ q0 args
        = (.ret none (some (.errMsg (execWrongNextMsg (stripQuery q0) args (expString e)))),
           ⟨true, pre ++ e :: rest⟩))
    ∧ (∀ c qb res d, e = Exp.eexec c qb res d →
        (queryMatches qb (stripQuery q0) = false →
          exec ⟨true, pre ++ e :: rest⟩ q0 args
            = (.ret none (some (.errMsg (execRegexMsg (stripQuery q0) qb.sqlRegex.pat))),
               ⟨true, pre ++ e :: rest⟩))
        ∧ (queryMatches qb (stripQuery q0) = true →
            argsMatches qb.args args = .ok false →
          exec ⟨true, pre ++ e :: rest⟩ q0 args
            = (.ret none (some (.errMsg (execArgsMsg (stripQuery q0)))),
               ⟨true, pre ++ e :: rest⟩)))
    ∧ ((∀ c qb rs d, e ≠ Exp.equery c qb rs d) →
      query ⟨true, pre ++ e :: rest⟩ q0 args
        = (.ret none (some (.errMsg (queryWrongNextMsg (stripQuery q0) args (expString e)))),
           ⟨true, pre ++ e :: rest⟩))
    ∧ (∀ c qb rs d, e = Exp.equery c qb rs d →
        (queryMatches qb (stripQuery q0) = false →
          query ⟨true, pre ++ e :: rest⟩ q0 args
            = (.ret none (some (.errMsg (queryRegexMsg (stripQuery q0) qb.sqlRegex.pat))),
               ⟨true, pre ++ e :: rest⟩))
        ∧ (queryMatches qb (stripQuery q0) = true →
            argsMatches qb.args args = .ok false →
          query ⟨true, pre ++ e :: rest⟩ q0 args
            = (.ret none (some (.errMsg (queryArgsMsg (stripQuery q0)))),
               ⟨true, pre ++ e :: rest⟩))) := by
  refine ⟨?_, ?_, ?_, ?_⟩
  · intro hne
    have hfind := findExec_ordered_pending (stripQuery q0) args pre rest e 0 0 hpre he
    have hw : findExec true (stripQuery q0) args (pre ++ e :: rest) 0 0
        = .wrongNext (expString e) := by
      rw [hfind]
      cases e <;> first | rfl | exact absurd rfl (hne _ _ _ _)
    simp [exec, hw]
  · rintro c qb res d rfl
    have hfind : findExec true (stripQuery q0) args
        (pre ++ Exp.eexec c qb res d :: rest) 0 0
        = .found ⟨pre.length, qb, res, c, d⟩ := by
      rw [findExec_ordered_pending (stripQuery q0) args pre rest _ 0 0 hpre he]
      simp
    constructor
    · intro hq
      simp [exec, hfind, hq]
    · intro hq ha
      simp [exec, hfind, hq, ha]
  · intro hne
    have hfind := findQuery_ordered_pending (stripQuery q0) args pre rest e 0 0 hpre he
    have hw : findQuery true (stripQuery q0) args (pre ++ e :: rest) 0 0
        = .wrongNext (expString e) := by
      rw [hfind]
      cases e <;> first | rfl | exact absurd rfl (hne _ _ _ _)
    simp [query, hw]
  · rintro c qb rs d rfl
    have hfind : findQuery true (stripQuery q0) args
        (pre ++ Exp.equery c qb rs d :: rest) 0 0
        = .found ⟨pre.length, qb, rs, c, d⟩ := by
      rw [findQuery_ordered_pending (stripQuery q0) args pre rest _ 0 0 hpre he]
      simp
    constructor
    · intro hq
      simp [query, hfind, hq]
    · intro hq ha
      simp [query, hfind, hq, ha]

theorem c1_witness :
    exec ⟨true, [Exp.ebegin ⟨false, none⟩ 0]⟩ "SELECT" []
      = (.ret none (some (.errMsg (execWrongNextMsg (stripQuery "SELECT") []
          (expString (Exp.ebegin ⟨false, none⟩ 0))))),
         ⟨true, [Exp.ebegin ⟨false, none⟩ 0]⟩) :=
  (c1_ordered_first_pending_decides [] [] (Exp.ebegin ⟨false, none⟩ 0) "SELECT" []
      (by intro x hx; cases hx) rfl).1
    (by intro c qb res d h; exact Exp.noConfusion h)

/-- When no pending expectation is an exec candidate, the unordered scan
reaches the end of the queue, counting the fulfilled entries. -/
theorem findExec_no_candidates (q : String) (args : List RVal) (l : List Exp)
    (i cnt : Nat)
    (h : ∀ x ∈ l, fulfilled x = false → execCandidate q args x = .ok false) :
    findExec false q args l i cnt
      = .noMatch (cnt + l.countP (fun x => fulfilled x)) := by
  induction l generalizing i cnt with
  | nil => simp [findExec]
  | cons e rest ih =>
    have hrest := fun x hx => h x (List.mem_cons_of_mem e hx)
    by_cases hf : fulfilled e
    · have hstep : findExec false q args (e :: rest) i cnt
          = findExec false q args rest (i + 1) (cnt + 1) := by
        simp [findExec, hf]
      rw [hstep, ih (i + 1) (cnt + 1) hrest]
      have : (e :: rest).countP (fun x => fulfilled x)
          = rest.countP (fun x => fulfilled x) + 1 := by
        simp [List.countP_cons, hf]
      rw [this]
      congr 1
      omega
    · have hcand : execCandidate q args e = .ok false :=
        h e (List.mem_cons_self e rest) (by simpa using hf)
      have hcount : (e :: rest).countP (fun x => fulfilled x)
          = rest.countP (fun x => fulfilled x) := by
        simp [List.countP_cons, hf]
      cases e with
      | eexec c qb res d =>
        have hm : attemptMatch qb q args = .ok false := by
          simpa [execCandidate] using hcand
        have hstep : findExec false q args (Exp.eexec c qb res d :: rest) i cnt
            = findExec false q args rest (i + 1) cnt := by
          simp [findExec, hf, hm]
        rw [hstep, ih (i + 1) cnt hrest, hcount]
      | eclose c =>
        have hstep : findExec false q args (Exp.eclose c :: rest) i cnt
            = findExec false q args rest (i + 1) cnt := by
          simp [findExec, hf]
        rw [hstep, ih (i + 1) cnt hrest, hcount]
      | ebegin c d =>
        have hstep : findExec false q args (Exp.ebegin c d :: rest) i cnt
            = findExec false q args rest (i + 1) cnt := by
          simp [findExec, hf]
        rw [hstep, ih (i + 1) cnt hrest, hcount]
      | ecommit c =>
        have hstep : findExec false q args (Exp.ecommit c :: rest) i cnt
            = findExec false q args rest (i + 1) cnt := by
          simp [findExec, hf]
        rw [hstep, ih (i + 1) cnt hrest, hcount]
      | erollback c =>
        have hstep : findExec false q args (Exp.erollback c :: rest) i cnt
            = findExec false q args rest (i + 1) cnt := by
          simp [findExec, hf]
        rw [hstep, ih (i + 1) cnt hrest, hcount]
      | eprepare c p ce mb wc d =>
        have hstep : findExec false q args (Exp.eprepare c p ce mb wc d :: rest) i cnt
            = findExec false q args rest (i + 1) cnt := by
          simp [findExec, hf]
        rw [hstep, ih (i + 1) cnt hrest, hcount]
      | equery c qb rs d =>
        have hstep : findExec false q args (Exp.equery c qb rs d :: rest) i cnt
            = findExec false q args rest (i + 1) cnt := by
          simp [findExec, hf]
        rw [hstep, ih (i + 1) cnt hrest, hcount]

/-- When no pending expectation is a query candidate, the unordered scan
reaches the end of the queue, counting the fulfilled entries. -/
theorem findQuery_no_candidates (q : String) (args : List RVal) (l : List Exp)
    (i cnt : Nat)
    (h : ∀ x ∈ l, fulfilled x = false → queryCandidate q args x = .ok false) :
    findQuery false q args l i cnt
      = .noMatch (cnt + l.countP (fun x => fulfilled x)) := by
  induction l generalizing i cnt with
  | nil => simp [findQuery]
  | cons e rest ih =>
    have hrest := fun x hx => h x (List.mem_cons_of_mem e hx)
    by_cases hf : fulfilled e
    · have hstep : findQuery false q args (e :: rest) i cnt
          = findQuery false q args rest (i + 1) (cnt + 1) := by
        simp [findQuery, hf]
      rw [hstep, ih (i + 1) (cnt + 1) hrest]
      have : (e :: rest).countP (fun x => fulfilled x)
          = rest.countP (fun x => fulfilled x) + 1 := by
        simp [List.countP_cons, hf]
      rw [this]
      congr 1
      omega
    · have hcand : queryCandidate q args e = .ok false :=
        h e (List.mem_cons_self e rest) (by simpa using hf)
      have hcount : (e :: rest).countP (fun x => fulfilled x)
          = rest.countP (fun x => fulfilled x) := by
        simp [List.countP_cons, hf]
      cases e with
      | equery c qb rs d =>
        have hm : attemptMatch qb q args = .ok false := by
          simpa [queryCandidate] using hcand
        have hstep : findQuery false q args (Exp.equery c qb rs d :: rest) i cnt
            = findQuery false q args rest (i + 1) cnt := by
          simp [findQuery, hf, hm]
        rw [hstep, ih (i + 1) cnt hrest, hcount]
      | eclose c =>
        have hstep : findQuery false q args (Exp.eclose c :: rest) i cnt
            = findQuery false q args rest (i + 1) cnt := by
          simp [findQuery, hf]
        rw [hstep, ih (i + 1) cnt hrest, hcount]
      | ebegin c d =>
        have hstep : findQuery false q args (Exp.ebegin c d :: rest) i cnt
            = findQuery false q args rest (i + 1) cnt := by
          simp [findQuery, hf]
        rw [hstep, ih (i + 1) cnt hrest, hcount]
      | ecommit c =>
        have hstep : findQuery false q args (Exp.ecommit c :: rest) i cnt
            = findQuery false q args rest (i + 1) cnt := by
          simp [findQuery, hf]
        rw [hstep, ih (i + 1) cnt hrest, hcount]
      | erollback c =>
        have hstep : findQuery false q args (Exp.erollback c :: rest) i cnt
            = findQuery false q args rest (i + 1) cnt := by
          simp [findQuery, hf]
        rw [hstep, ih (i + 1) cnt hrest, hcount]
      | eprepare c p ce mb wc d =>
        have hstep : findQuery false q args (Exp.eprepare c p ce mb wc d :: rest) i cnt
            = findQuery false q args rest (i + 1) cnt := by
          simp [findQuery, hf]
        rw [hstep, ih (i + 1) cnt hrest, hcount]
      | eexec c qb rs d =>
        have hstep : findQuery false q args (Exp.eexec c qb rs d :: rest) i cnt
            = findQuery false q args rest (i + 1) cnt := by
          simp [findQuery, hf]
        rw [hstep, ih (i + 1) cnt hrest, hcount]

/-- The unordered exec scan selects the first pending candidate: earlier
entries that are fulfilled or are no candidate are passed over. -/
theorem findExec_first_candidate (q : String) (args : List RVal)
    (pre rest : List Exp) (c : CommonExp) (qb : QueryBased)
    (res : Option ResultData) (d : Nat) (i cnt : Nat)
    (hpre : ∀ x ∈ pre, fulfilled x = true ∨ execCandidate q args x = .ok false)
    (hc : c.triggered = false) (hm : attemptMatch qb q args = .ok true) :
    findExec false q args (pre ++ Exp.eexec c qb res d :: rest) i cnt
      = .found ⟨i + pre.length, qb, res, c, d⟩ := by
  induction pre generalizing i cnt with
  | nil => simp [findExec, fulfilled, Exp.common, hc, hm]
  | cons x pre ih =>
    have hx := hpre x (List.mem_cons_self x pre)
    have hpre2 := fun y hy => hpre y (List.mem_cons_of_mem x hy)
    have harith : i + 1 + pre.length = i + (x :: pre).length := by
      simp only [List.length_cons]
      omega
    by_cases hf : fulfilled x
    · have hstep : findExec false q args ((x :: pre) ++ (Exp.eexec c qb res d :: rest)) i cnt
          = findExec false q args (pre ++ Exp.eexec c qb res d :: rest) (i + 1) (cnt + 1) := by
        simp [findExec, hf]
      rw [hstep, ih (i + 1) (cnt + 1) hpre2, harith]
    · have hcand : execCandidate q args x = .ok false := by
        rcases hx with hx1 | hx2
        · exact absurd hx1 hf
        · exact hx2
      have hstep : findExec false q args ((x :: pre) ++ (Exp.eexec c qb res d :: rest)) i cnt
          = findExec false q args (pre ++ Exp.eexec c qb res d :: rest) (i + 1) cnt := by
        cases x with
        | eexec c2 qb2 res2 d2 =>
          have hm2 : attemptMatch qb2 q args = .ok false := by
            simpa [execCandidate] using hcand
          simp [findExec, hf, hm2]
        | eclose c2 => simp [findExec, hf]
        | ebegin c2 d2 => simp [findExec, hf]
        | ecommit c2 => simp [findExec, hf]
        | erollback c2 => simp [findExec, hf]
        | eprepare c2 p2 ce2 mb2 wc2 d2 => simp [findExec, hf]
        | equery c2 qb2 rs2 d2 => simp [findExec, hf]
      rw [hstep, ih (i + 1) cnt hpre2, harith]

/-- The unordered query scan selects the first pending candidate. -/
theorem findQuery_first_candidate (q : String) (args : List RVal)
    (pre rest : List Exp) (c : CommonExp) (qb : QueryBased)
    (rs : Option Nat) (d : Nat) (i cnt : Nat)
    (hpre : ∀ x ∈ pre, fulfilled x = true ∨ queryCandidate q args x = .ok false)
    (hc : c.triggered = false) (hm : attemptMatch qb q args = .ok true) :
    findQuery false q args (pre ++ Exp.equery c qb rs d :: rest) i cnt
      = .found ⟨i + pre.length, qb, rs, c, d⟩ := by
  induction pre generalizing i cnt with
  | nil => simp [findQuery, fulfilled, Exp.common, hc, hm]
  | cons x pre ih =>
    have hx := hpre x (List.mem_cons_self x pre)
    have hpre2 := fun y hy => hpre y (List.mem_cons_of_mem x hy)
    have harith : i + 1 + pre.length = i + (x :: pre).length := by
      simp only [List.length_cons]
      omega
    by_cases hf : fulfilled x
    · have hstep : findQuery false q args ((x :: pre) ++ (Exp.equery c qb rs d :: rest)) i cnt
          = findQuery false q args (pre ++ Exp.equery c qb rs d :: rest) (i + 1) (cnt + 1) := by
        simp [findQuery, hf]
      rw [hstep, ih (i + 1) (cnt + 1) hpre2, harith]
    · have hcand : queryCandidate q args x = .ok false := by
        rcases hx with hx1 | hx2
        · exact absurd hx1 hf
        · exact hx2
      have hstep : findQuery false q args ((x :: pre) ++ (Exp.equery c qb rs d :: rest)) i cnt
          = findQuery false q args (pre ++ Exp.equery c qb rs d :: rest) (i + 1) cnt := by
        cases x with
        | equery c2 qb2 rs2 d2 =>
          have hm2 : attemptMatch qb2 q args = .ok false := by
            simpa [queryCandidate] using hcand
          simp [findQuery, hf, hm2]
        | eclose c2 => simp [findQuery, hf]
        | ebegin c2 d2 => simp [findQuery, hf]
        | ecommit c2 => simp [findQuery, hf]
        | erollback c2 => simp [findQuery, hf]
        | eprepare c2 p2 ce2 mb2 wc2 d2 => simp [findQuery, hf]
        | eexec c2 qb2 rs2 d2 => simp [findQuery, hf]
      rw [hstep, ih (i + 1) cnt hpre2, harith]

/-- In either mode, a matching pending exec expectation right after a
fulfilled prefix is selected. -/
theorem findExec_first_pending_exec (ord : Bool) (q : String) (args : List RVal)
    (pre rest : List Exp) (c : CommonExp) (qb : QueryBased)
    (res : Option ResultData) (d : Nat) (i cnt : Nat)
    (hpre : ∀ x ∈ pre, fulfilled x = true)
    (hc : c.triggered = false) (hm : attemptMatch qb q args = .ok true) :
    findExec ord q args (pre ++ Exp.eexec c qb res d :: rest) i cnt
      = .found ⟨i + pre.length, qb, res, c, d⟩ := by
  cases ord with
  | false =>
    exact findExec_first_candidate q args pre rest c qb res d i cnt
      (fun x hx => Or.inl (hpre x hx)) hc hm
  | true =>
    rw [findExec_ordered_pending q args pre rest _ i cnt hpre
      (by simpa [fulfilled, Exp.common] using hc)]

/-- In either mode, a matching pending query expectation right after a
fulfilled prefix is selected. -/
theorem findQuery_first_pending_query (ord : Bool) (q : String) (args : List RVal)
    (pre rest : List Exp) (c : CommonExp) (qb : QueryBased)
    (rs : Option Nat) (d : Nat) (i cnt : Nat)
    (hpre : ∀ x ∈ pre, fulfilled x = true)
    (hc : c.triggered = false) (hm : attemptMatch qb q args = .ok true) :
    findQuery ord q args (pre ++ Exp.equery c qb rs d :: rest) i cnt
      = .found ⟨i + pre.length, qb, rs, c, d⟩ := by
  cases ord with
  | false =>
    exact findQuery_first_candidate q args pre rest c qb rs d i cnt
      (fun x hx => Or.inl (hpre x hx)) hc hm
  | true =>
    rw [findQuery_ordered_pending q args pre rest _ i cnt hpre
      (by simpa [fulfilled, Exp.common] using hc)]

/-- The unordered exec scan panics at the first pending expectation whose
argument comparison faults, once the entries before it are skippable. -/
theorem findExec_panic_at (q : String) (args : List RVal)
    (pre rest : List Exp) (c : CommonExp) (qb : QueryBased)
    (res : Option ResultData) (d : Nat) (i cnt : Nat)
    (hpre : ∀ x ∈ pre, fulfilled x = true ∨ execCandidate q args x = .ok false)
    (hc : c.triggered = false) (hm : attemptMatch qb q args = .error ()) :
    findExec false q args (pre ++ Exp.eexec c qb res d :: rest) i cnt
      = .panicked := by
  induction pre generalizing i cnt with
  | nil => simp [findExec, fulfilled, Exp.common, hc, hm]
  | cons x pre ih =>
    have hx := hpre x (List.mem_cons_self x pre)
    have hpre2 := fun y hy => hpre y (List.mem_cons_of_mem x hy)
    by_cases hf : fulfilled x
    · have hstep : findExec false q args ((x :: pre) ++ (Exp.eexec c qb res d :: rest)) i cnt
          = findExec false q args (pre ++ Exp.eexec c qb res d :: rest) (i + 1) (cnt + 1) := by
        simp [findExec, hf]
      rw [hstep]
      exact ih (i + 1) (cnt + 1) hpre2
    · have hcand : execCandidate q args x = .ok false := by
        rcases hx with hx1 | hx2
        · exact absurd hx1 hf
        · exact hx2
      have hstep : findExec false q args ((x :: pre) ++ (Exp.eexec c qb res d :: rest)) i cnt
          = findExec false q args (pre ++ Exp.eexec c qb res d :: rest) (i + 1) cnt := by
        cases x with
        | eexec c2 qb2 res2 d2 =>
          have hm2 : attemptMatch qb2 q args = .ok false := by
            simpa [execCandidate] using hcand
          simp [findExec, hf, hm2]
        | eclose c2 => simp [findExec, hf]
        | ebegin c2 d2 => simp [findExec, hf]
        | ecommit c2 => simp [findExec, hf]
        | erollback c2 => simp [findExec, hf]
        | eprepare c2 p2 ce2 mb2 wc2 d2 => simp [findExec, hf]
        | equery c2 qb2 rs2 d2 => simp [findExec, hf]
      rw [hstep]
      exact ih (i + 1) cnt hpre2

/-- The unordered query scan panics at the first pending expectation whose
argument comparison faults, once the entries before it are skippable. -/
theorem findQuery_panic_at (q : String) (args : List RVal)
    (pre rest : List Exp) (c : CommonExp) (qb : QueryBased)
    (rs : Option Nat) (d : Nat) (i cnt : Nat)
    (hpre : ∀ x ∈ pre, fulfilled x = true ∨ queryCandidate q args x = .ok false)
    (hc : c.triggered = false) (hm : attemptMatch qb q args = .error ()) :
    findQuery false q args (pre ++ Exp.equery c qb rs d :: rest) i cnt
      = .panicked := by
  induction pre generalizing i cnt with
  | nil => simp [findQuery, fulfilled, Exp.common, hc, hm]
  | cons x pre ih =>
    have hx := hpre x (List.mem_cons_self x pre)
    have hpre2 := fun y hy => hpre y (List.mem_cons_of_mem x hy)
    by_cases hf : fulfilled x
    · have hstep : findQuery false q args ((x :: pre) ++ (Exp.equery c qb rs d :: rest)) i cnt
          = findQuery false q args (pre ++ Exp.equery c qb rs d :: rest) (i + 1) (cnt + 1) := by
        simp [findQuery, hf]
      rw [hstep]
      exact ih (i + 1) (cnt + 1) hpre2
    · have hcand : queryCandidate q args x = .ok false := by
        rcases hx with hx1 | hx2
        · exact absurd hx1 hf
        · exact hx2
      have hstep : findQuery false q args ((x :: pre) ++ (Exp.equery c qb rs d :: rest)) i cnt
          = findQuery false q args (pre ++ Exp.equery c qb rs d :: rest) (i + 1) cnt := by
        cases x with
        | equery c2 qb2 rs2 d2 =>
          have hm2 : attemptMatch qb2 q args = .ok false := by
            simpa [queryCandidate] using hcand
          simp [findQuery, hf, hm2]
        | eclose c2 => simp [findQuery, hf]
        | ebegin c2 d2 => simp [findQuery, hf]
        | ecommit c2 => simp [findQuery, hf]
        | erollback c2 => simp [findQuery, hf]
        | eprepare c2 p2 ce2 mb2 wc2 d2 => simp [findQuery, hf]
        | eexec c2 qb2 rs2 d2 => simp [findQuery, hf]
      rw [hstep]
      exact ih (i + 1) cnt hpre2

/-- Claim C4 (amended): an internal reflection failure from an
incompatible declared/actual type pair is not contained by the matching
path: in ordered mode the direct `argsMatches` call after the walk panics,
and in unordered mode the panic escapes `attemptMatch` — its bare
`defer recover()` does not stop the panic — and hence the scan.  In both
modes the Query/Exec call panics and no expectation is consumed. -/
theorem c4_reflect_panic_escapes (ord : Bool) (pre rest : List Exp)
    (c : CommonExp) (qb : QueryBased) (res : Option ResultData)
    (rs : Option Nat) (q0 : String) (args : List RVal) (d : Nat)
    (hpre : ∀ x ∈ pre, fulfilled x = true)
    (hc : c.triggered = false)
    (hq : queryMatches qb (stripQuery q0) = true)
    (ha : argsMatches qb.args args = .error ()) :
    (exec ⟨ord, pre ++ Exp.eexec c qb res d :: rest⟩ q0 args
        = (.panicked, ⟨ord, pre ++ Exp.eexec c qb res d :: rest⟩))
    ∧ (query ⟨ord, pre ++ Exp.equery c qb rs d :: rest⟩ q0 args
        = (.panicked, ⟨ord, pre ++ Exp.equery c qb rs d :: rest⟩)) := by
  have hm : attemptMatch qb (stripQuery q0) args = .error () := by
    simp [attemptMatch, hq, ha]
  constructor
  · cases ord with
    | true =>
      have hfind : findExec true (stripQuery q0) args
          (pre ++ Exp.eexec c qb res d :: rest) 0 0
          = .found ⟨pre.length, qb, res, c, d⟩ := by
        rw [findExec_ordered_pending (stripQuery q0) args pre rest _ 0 0 hpre
          (by simpa [fulfilled, Exp.common] using hc)]
        simp
      simp [exec, hfind, hq, ha]
    | false =>
      have hfind := findExec_panic_at (stripQuery q0) args pre rest c qb res d 0 0
        (fun x hx => Or.inl (hpre x hx)) hc hm
      simp [exec, hfind]
  · cases ord with
    | true =>
      have hfind : findQuery true (stripQuery q0) args
          (pre ++ Exp.equery c qb rs d :: rest) 0 0
          = .found ⟨pre.length, qb, rs, c, d⟩ := by
        rw [findQuery_ordered_pending (stripQuery q0) args pre rest _ 0 0 hpre
          (by simpa [fulfilled, Exp.common] using hc)]
        simp
      simp [query, hfind, hq, ha]
    | false =>
      have hfind := findQuery_panic_at (stripQuery q0) args pre rest c qb rs d 0 0
        (fun x hx => Or.inl (hpre x hx)) hc hm
      simp [query, hfind]

theorem c4_reflect_witness :
    exec ⟨false, [Exp.eexec ⟨false, none⟩ ⟨patUpdate, some [EArg.val (RVal.vstring "5")]⟩
        (some ⟨0, 1, none⟩) 0]⟩ "UPDATE users" [RVal.vint 64 5]
      = (.panicked,
         ⟨false, [Exp.eexec ⟨false, none⟩ ⟨patUpdate, some [EArg.val (RVal.vstring "5")]⟩
            (some ⟨0, 1, none⟩) 0]⟩) :=
  (c4_reflect_panic_escapes false [] [] ⟨false, none⟩
      ⟨patUpdate, some [EArg.val (RVal.vstring "5")]⟩ (some ⟨0, 1, none⟩) none
      "UPDATE users" [RVal.vint 64 5] 0
      (by intro x hx; cases hx) rfl (by rfl) rfl).1

/-- Claim C7 counterexample: in unordered mode a pending exec expectation
whose SQL matches but whose declared argument is of an incompatible kind
is not skipped without being marked: the argument comparison panics out of
the scan, so the call panics instead of failing with the "was not
expected" error. -/
theorem c7_counterexample :
    c7fix.ordered = false
    ∧ (exec c7fix "UPDATE users" [RVal.vint 64 5]).1 = DriverRet.panicked
    ∧ (∀ ex er, (DriverRet.panicked : DriverRet ExecOut) ≠ DriverRet.ret ex er) :=
  ⟨rfl, rfl, fun ex er h => DriverRet.noConfusion h⟩

/-- Claim C7 (amended): in unordered mode, pending expectations that
definitely do not match the call's kind, SQL and arguments are skipped
without being marked; the first pending expectation that matches is
selected and it alone is consumed; and a scan of the whole queue without a
match fails with a "was not expected" error whose message carries the
"all expectations were already fulfilled" prefix exactly when every
declared expectation is fulfilled.  A pending same-kind expectation whose
SQL matches but whose argument comparison faults is not skipped: the scan
panics there (see the counterexample). -/
theorem c7_unordered_scan (q0 : String) (args : List RVal) :
    (∀ pre rest c qb res d,
      (∀ x ∈ pre, fulfilled x = true ∨ execCandidate (stripQuery q0) args x = .ok false) →
      c.triggered = false → attemptMatch qb (stripQuery q0) args = .ok true →
      (exec ⟨false, pre ++ Exp.eexec c qb res d :: rest⟩ q0 args).2
        = ⟨false, pre ++ Exp.eexec { c with triggered := true } qb res d :: rest⟩)
    ∧ (∀ l, (∀ x ∈ l, fulfilled x = false → execCandidate (stripQuery q0) args x = .ok false) →
      exec ⟨false, l⟩ q0 args
        = (.ret none (some (.errMsg (execNoMatchMsg (stripQuery q0) args
            (decide (∀ x ∈ l, fulfilled x = true))))), ⟨false, l⟩))
    ∧ (∀ qq aa, execNoMatchMsg qq aa true
        = "all expectations were already fulfilled, " ++ execNoMatchMsg qq aa false)
    ∧ (∀ pre rest c qb res d,
      (∀ x ∈ pre, fulfilled x = true ∨ execCandidate (stripQuery q0) args x = .ok false) →
      c.triggered = false → attemptMatch qb (stripQuery q0) args = .error () →
      exec ⟨false, pre ++ Exp.eexec c qb res d :: rest⟩ q0 args
        = (.panicked, ⟨false, pre ++ Exp.eexec c qb res d :: rest⟩))
    ∧ (∀ pre rest c qb rs d,
      (∀ x ∈ pre, fulfilled x = true ∨ queryCandidate (stripQuery q0) args x = .ok false) →
      c.triggered = false → attemptMatch qb (stripQuery q0) args = .ok true →
      (query ⟨false, pre ++ Exp.equery c qb rs d :: rest⟩ q0 args).2
        = ⟨false, pre ++ Exp.equery { c with triggered := true } qb rs d :: rest⟩)
    ∧ (∀ l, (∀ x ∈ l, fulfilled x = false → queryCandidate (stripQuery q0) args x = .ok false) →
      query ⟨false, l⟩ q0 args
        = (.ret none (some (.errMsg (queryNoMatchMsg (stripQuery q0) args
            (decide (∀ x ∈ l, fulfilled x = true))))), ⟨false, l⟩))
    ∧ (∀ qq aa, queryNoMatchMsg qq aa true
        = "all expectations were already fulfilled, " ++ queryNoMatchMsg qq aa false)
    ∧ (∀ pre rest c qb rs d,
      (∀ x ∈ pre, fulfilled x = true ∨ queryCandidate (stripQuery q0) args x = .ok false) →
      c.triggered = false → attemptMatch qb (stripQuery q0) args = .error () →
      query ⟨false, pre ++ Exp.equery c qb rs d :: rest⟩ q0 args
        = (.panicked, ⟨false, pre ++ Exp.equery c qb rs d :: rest⟩)) := by
  refine ⟨?_, ?_, fun qq aa => rfl, ?_, ?_, ?_, fun qq aa => rfl, ?_⟩
  · intro pre rest c qb res d hpre hc hm
    have hfind := findExec_first_candidate (stripQuery q0) args pre rest c qb res d 0 0
      hpre hc hm
    obtain ⟨hq, ha⟩ := (attemptMatch_true_iff qb (stripQuery q0) args).mp hm
    have htrig : setTriggeredAt (pre ++ Exp.eexec c qb res d :: rest) pre.length
        = pre ++ Exp.eexec { c with triggered := true } qb res d :: rest := by
      simpa [setTriggered] using setTriggeredAt_append pre rest (Exp.eexec c qb res d)
    cases hce : c.err with
    | some er => simp [exec, hfind, hq, ha, hce, htrig]
    | none =>
      cases res with
      | some r => simp [exec, hfind, hq, ha, hce, htrig]
      | none => simp [exec, hfind, hq, ha, hce, htrig]
  · intro l hnone
    have hfind := findExec_no_candidates (stripQuery q0) args l 0 0 hnone
    have hiff : (0 + l.countP (fun x => fulfilled x) = l.length)
        ↔ ∀ x ∈ l, fulfilled x = true := by
      rw [Nat.zero_add]
      exact List.countP_eq_length (p := fun x => fulfilled x)
    have hdec : decide (0 + l.countP (fun x => fulfilled x) = l.length)
        = decide (∀ x ∈ l, fulfilled x = true) := decide_eq_decide.mpr hiff
    simp [exec, hfind, hdec]
  · intro pre rest c qb res d hpre hc hm
    have hfind := findExec_panic_at (stripQuery q0) args pre rest c qb res d 0 0
      hpre hc hm
    simp [exec, hfind]
  · intro pre rest c qb rs d hpre hc hm
    have hfind := findQuery_first_candidate (stripQuery q0) args pre rest c qb rs d 0 0
      hpre hc hm
    obtain ⟨hq, ha⟩ := (attemptMatch_true_iff qb (stripQuery q0) args).mp hm
    have htrig : setTriggeredAt (pre ++ Exp.equery c qb rs d :: rest) pre.length
        = pre ++ Exp.equery { c with triggered := true } qb rs d :: rest := by
      simpa [setTriggered] using setTriggeredAt_append pre rest (Exp.equery c qb rs d)
    cases hce : c.err with
    | some er => simp [query, hfind, hq, ha, hce, htrig]
    | none =>
      cases rs with
      | some r => simp [query, hfind, hq, ha, hce, htrig]
      | none => simp [query, hfind, hq, ha, hce, htrig]
  · intro l hnone
    have hfind := findQuery_no_candidates (stripQuery q0) args l 0 0 hnone
    have hiff : (0 + l.countP (fun x => fulfilled x) = l.length)
        ↔ ∀ x ∈ l, fulfilled x = true := by
      rw [Nat.zero_add]
      exact List.countP_eq_length (p := fun x => fulfilled x)
    have hdec : decide (0 + l.countP (fun x => fulfilled x) = l.length)
        = decide (∀ x ∈ l, fulfilled x = true) := decide_eq_decide.mpr hiff
    simp [query, hfind, hdec]
  · intro pre rest c qb rs d hpre hc hm
    have hfind := findQuery_panic_at (stripQuery q0) args pre rest c qb rs d 0 0
      hpre hc hm
    simp [query, hfind]

theorem c7_witness :
    (exec ⟨false, [Exp.ebegin ⟨true, none⟩ 0]⟩ "SELECT" []
      = (.ret none (some (.errMsg (execNoMatchMsg (stripQuery "SELECT") []
          (decide (∀ x ∈ [Exp.ebegin ⟨true, none⟩ 0], fulfilled x = true))))),
         ⟨false, [Exp.ebegin ⟨true, none⟩ 0]⟩)) :=
  (c7_unordered_scan "SELECT" []).2.1 [Exp.ebegin ⟨true, none⟩ 0]
    (by intro x hx hfx; cases hx with
        | head => exact absurd hfx (by simp [fulfilled, Exp.common])
        | tail _ h2 => cases h2)

/-- Claim C10: a selected Query (resp. Exec) expectation whose programmed
outcome has neither an error nor a rows (resp. result) payload makes the
call fail with the "must return a database/sql/driver.Rows" (resp.
"...driver.Result") error — yet the expectation is marked triggered before
the error is returned, so it is consumed and `ExpectationsWereMet` treats
it as met despite the failed call. -/
theorem c10_missing_payload_consumes (ord : Bool) (pre rest : List Exp)
    (c : CommonExp) (qb : QueryBased) (q0 : String) (args : List RVal) (d : Nat)
    (hpre : ∀ x ∈ pre, fulfilled x = true)
    (hc : c.triggered = false) (hcerr : c.err = none)
    (hm : attemptMatch qb (stripQuery q0) args = .ok true) :
    (exec ⟨ord, pre ++ Exp.eexec c qb none d :: rest⟩ q0 args
        = (.ret none (some (.errMsg (execMustReturnMsg (stripQuery q0) args))),
           ⟨ord, pre ++ Exp.eexec { c with triggered := true } qb none d :: rest⟩))
    ∧ ((∀ x ∈ pre ++ rest, metOk x = true) →
        expectationsWereMet
          (pre ++ Exp.eexec { c with triggered := true } qb none d :: rest) = none)
    ∧ (query ⟨ord, pre ++ Exp.equery c qb none d :: rest⟩ q0 args
        = (.ret none (some (.errMsg (queryMustReturnMsg (stripQuery q0) args))),
           ⟨ord, pre ++ Exp.equery { c with triggered := true } qb none d :: rest⟩))
    ∧ ((∀ x ∈ pre ++ rest, metOk x = true) →
        expectationsWereMet
          (pre ++ Exp.equery { c with triggered := true } qb none d :: rest) = none) := by
  obtain ⟨hq, ha⟩ := (attemptMatch_true_iff qb (stripQuery q0) args).mp hm
  refine ⟨?_, ?_, ?_, ?_⟩
  · have hfind := findExec_first_pending_exec ord (stripQuery q0) args pre rest c qb
      none d 0 0 hpre hc hm
    have htrig : setTriggeredAt (pre ++ Exp.eexec c qb none d :: rest) pre.length
        = pre ++ Exp.eexec { c with triggered := true } qb none d :: rest := by
      simpa [setTriggered] using setTriggeredAt_append pre rest (Exp.eexec c qb none d)
    simp [exec, hfind, hq, ha, hcerr, htrig]
  · intro hall
    rw [wereMet_none_iff]
    intro x hx
    rcases List.mem_append.mp hx with hx1 | hx2
    · exact hall x (List.mem_append.mpr (Or.inl hx1))
    · rcases List.mem_cons.mp hx2 with rfl | hx3
      · simp [metOk, fulfilled, Exp.common]
      · exact hall x (List.mem_append.mpr (Or.inr hx3))
  · have hfind := findQuery_first_pending_query ord (stripQuery q0) args pre rest c qb
      none d 0 0 hpre hc hm
    have htrig : setTriggeredAt (pre ++ Exp.equery c qb none d :: rest) pre.length
        = pre ++ Exp.equery { c with triggered := true } qb none d :: rest := by
      simpa [setTriggered] using setTriggeredAt_append pre rest (Exp.equery c qb none d)
    simp [query, hfind, hq, ha, hcerr, htrig]
  · intro hall
    rw [wereMet_none_iff]
    intro x hx
    rcases List.mem_append.mp hx with hx1 | hx2
    · exact hall x (List.mem_append.mpr (Or.inl hx1))
    · rcases List.mem_cons.mp hx2 with rfl | hx3
      · simp [metOk, fulfilled, Exp.common]
      · exact hall x (List.mem_append.mpr (Or.inr hx3))

theorem c10_witness :
    (exec ⟨true, [Exp.eexec ⟨false, none⟩ ⟨patSelect, none⟩ none 0]⟩ "SELECT" []
        = (.ret none (some (.errMsg (execMustReturnMsg (stripQuery "SELECT") []))),
           ⟨true, [Exp.eexec ⟨true, none⟩ ⟨patSelect, none⟩ none 0]⟩))
    ∧ expectationsWereMet [Exp.eexec ⟨true, none⟩ ⟨patSelect, none⟩ none 0] = none :=
  ⟨((c10_missing_payload_consumes true [] [] ⟨false, none⟩ ⟨patSelect, none⟩ "SELECT" [] 0
      (by intro x hx; cases hx) rfl rfl (by rfl)).1),
   ((c10_missing_payload_consumes true [] [] ⟨false, none⟩ ⟨patSelect, none⟩ "SELECT" [] 0
      (by intro x hx; cases hx) rfl rfl (by rfl)).2.1 (by intro x hx; cases hx))⟩

/-- Claim C8 counterexample: an expectation with an artificial delay and a
programmed error is selected by QueryContext while the context is cancelled
before the delay elapses — yet the call returns the programmed error, not
ErrCancelled, because `query` returns a nil expectation on a programmed
error and the delay/cancellation race is skipped. -/
theorem c8_counterexample :
    (QueryContext c8fix "SELECT" [] true).1 = DriverRet.ret none (some (GoError.user 1))
    ∧ GoError.user 1 ≠ GoError.cancelled
    ∧ (QueryContext c8fix "SELECT" [] true).2.expected
        = [Exp.equery ⟨true, some (.user 1)⟩ ⟨patSelect, none⟩ (some 0) 5] := by
  refine ⟨rfl, by decide, rfl⟩

/-- Claim C8 (amended): when the delay/cancellation race is entered and the
context is cancelled first, the call returns the distinct cancellation
error and the selected expectation remains triggered.  The race is entered
always for BeginTx and PrepareContext (even with a programmed error), and
for QueryContext/ExecContext only when the programmed outcome is a
successful payload: a Query/Exec expectation programmed to fail returns its
error immediately, skipping the race. -/
theorem c8_cancellation (ord : Bool) (pre rest : List Exp) (c : CommonExp)
    (qb : QueryBased) (q0 : String) (args : List RVal) (d : Nat)
    (hpre : ∀ x ∈ pre, fulfilled x = true) (hc : c.triggered = false)
    (hm : attemptMatch qb (stripQuery q0) args = .ok true) :
    (∀ rs, c.err = none →
      QueryContext ⟨ord, pre ++ Exp.equery c qb (some rs) d :: rest⟩ q0 args true
        = (.ret none (some .cancelled),
           ⟨ord, pre ++ Exp.equery { c with triggered := true } qb (some rs) d :: rest⟩))
    ∧ (∀ r, c.err = none →
      ExecContext ⟨ord, pre ++ Exp.eexec c qb (some r) d :: rest⟩ q0 args true
        = (.ret none (some .cancelled),
           ⟨ord, pre ++ Exp.eexec { c with triggered := true } qb (some r) d :: rest⟩))
    ∧ (∀ rs er, c.err = some er →
      QueryContext ⟨ord, pre ++ Exp.equery c qb rs d :: rest⟩ q0 args true
        = (.ret none (some er),
           ⟨ord, pre ++ Exp.equery { c with triggered := true } qb rs d :: rest⟩))
    ∧ (∀ res er, c.err = some er →
      ExecContext ⟨ord, pre ++ Exp.eexec c qb res d :: rest⟩ q0 args true
        = (.ret none (some er),
           ⟨ord, pre ++ Exp.eexec { c with triggered := true } qb res d :: rest⟩))
    ∧ (BeginTx ⟨ord, pre ++ Exp.ebegin c d :: rest⟩ true
        = (.ret none (some .cancelled),
           ⟨ord, pre ++ Exp.ebegin { c with triggered := true } d :: rest⟩))
    ∧ (∀ pat ce mb wc, SqlPat.test pat (stripQuery q0) = true →
      PrepareContext ⟨ord, pre ++ Exp.eprepare c pat ce mb wc d :: rest⟩ q0 true
        = (.ret none (some .cancelled),
           ⟨ord, pre ++ Exp.eprepare { c with triggered := true } pat ce mb wc d :: rest⟩)) := by
  obtain ⟨hq, ha⟩ := (attemptMatch_true_iff qb (stripQuery q0) args).mp hm
  refine ⟨?_, ?_, ?_, ?_, ?_, ?_⟩
  · intro rs hcerr
    have hfind := findQuery_first_pending_query ord (stripQuery q0) args pre rest c qb
      (some rs) d 0 0 hpre hc hm
    have htrig : setTriggeredAt (pre ++ Exp.equery c qb (some rs) d :: rest) pre.length
        = pre ++ Exp.equery { c with triggered := true } qb (some rs) d :: rest := by
      simpa [setTriggered] using setTriggeredAt_append pre rest (Exp.equery c qb (some rs) d)
    have hquery : query ⟨ord, pre ++ Exp.equery c qb (some rs) d :: rest⟩ q0 args
        = (.ret (some ⟨rs, d⟩) none,
           ⟨ord, pre ++ Exp.equery { c with triggered := true } qb (some rs) d :: rest⟩) := by
      simp [query, hfind, hq, ha, hcerr, htrig]
    simp [QueryContext, hquery]
  · intro r hcerr
    have hfind := findExec_first_pending_exec ord (stripQuery q0) args pre rest c qb
      (some r) d 0 0 hpre hc hm
    have htrig : setTriggeredAt (pre ++ Exp.eexec c qb (some r) d :: rest) pre.length
        = pre ++ Exp.eexec { c with triggered := true } qb (some r) d :: rest := by
      simpa [setTriggered] using setTriggeredAt_append pre rest (Exp.eexec c qb (some r) d)
    have hexec : exec ⟨ord, pre ++ Exp.eexec c qb (some r) d :: rest⟩ q0 args
        = (.ret (some ⟨r, d⟩) none,
           ⟨ord, pre ++ Exp.eexec { c with triggered := true } qb (some r) d :: rest⟩) := by
      simp [exec, hfind, hq, ha, hcerr, htrig]
    simp [ExecContext, hexec]
  · intro rs er hcerr
    have hfind := findQuery_first_pending_query ord (stripQuery q0) args pre rest c qb
      rs d 0 0 hpre hc hm
    have htrig : setTriggeredAt (pre ++ Exp.equery c qb rs d :: rest) pre.length
        = pre ++ Exp.equery { c with triggered := true } qb rs d :: rest := by
      simpa [setTriggered] using setTriggeredAt_append pre rest (Exp.equery c qb rs d)
    have hquery : query ⟨ord, pre ++ Exp.equery c qb rs d :: rest⟩ q0 args
        = (.ret none (some er),
           ⟨ord, pre ++ Exp.equery { c with triggered := true } qb rs d :: rest⟩) := by
      simp [query, hfind, hq, ha, hcerr, htrig]
    simp [QueryContext, hquery]
  · intro res er hcerr
    have hfind := findExec_first_pending_exec ord (stripQuery q0) args pre rest c qb
      res d 0 0 hpre hc hm
    have htrig : setTriggeredAt (pre ++ Exp.eexec c qb res d :: rest) pre.length
        = pre ++ Exp.eexec { c with triggered := true } qb res d :: rest := by
      simpa [setTriggered] using setTriggeredAt_append pre rest (Exp.eexec c qb res d)
    have hexec : exec ⟨ord, pre ++ Exp.eexec c qb res d :: rest⟩ q0 args
        = (.ret none (some er),
           ⟨ord, pre ++ Exp.eexec { c with triggered := true } qb res d :: rest⟩) := by
      simp [exec, hfind, hq, ha, hcerr, htrig]
    simp [ExecContext, hexec]
  · have hfind := findBegin_first_pending ord pre rest c d 0 0 hpre hc
    have htrig : setTriggeredAt (pre ++ Exp.ebegin c d :: rest) pre.length
        = pre ++ Exp.ebegin { c with triggered := true } d :: rest := by
      simpa [setTriggered] using setTriggeredAt_append pre rest (Exp.ebegin c d)
    have hbegin : begin ⟨ord, pre ++ Exp.ebegin c d :: rest⟩
        = (.ret (some d) c.err,
           ⟨ord, pre ++ Exp.ebegin { c with triggered := true } d :: rest⟩) := by
      simp [begin, hfind, htrig]
    simp [BeginTx, hbegin]
  · intro pat ce mb wc ht
    have hfind := findPrepare_first_pending ord (stripQuery q0) pre rest c pat ce mb wc
      d 0 0 hpre hc ht
    have htrig : setTriggeredAt (pre ++ Exp.eprepare c pat ce mb wc d :: rest) pre.length
        = pre ++ Exp.eprepare { c with triggered := true } pat ce mb wc d :: rest := by
      simpa [setTriggered] using
        setTriggeredAt_append pre rest (Exp.eprepare c pat ce mb wc d)
    have hprep : prepare ⟨ord, pre ++ Exp.eprepare c pat ce mb wc d :: rest⟩ q0
        = (.ret (some d) c.err,
           ⟨ord, pre ++ Exp.eprepare { c with triggered := true } pat ce mb wc d :: rest⟩) := by
      simp [prepare, hfind, ht, htrig]
    simp [PrepareContext, hprep]

theorem c8_witness :
    QueryContext ⟨true, [Exp.equery ⟨false, none⟩ ⟨patSelect, none⟩ (some 3) 5]⟩
        "SELECT" [] true
      = (.ret none (some .cancelled),
         ⟨true, [Exp.equery ⟨true, none⟩ ⟨patSelect, none⟩ (some 3) 5]⟩) :=
  (c8_cancellation true [] [] ⟨false, none⟩ ⟨patSelect, none⟩ "SELECT" [] 5
      (by intro x hx; cases hx) rfl (by rfl)).1 3 rfl

/-- Pointwise description of a poisoning pass. -/
theorem poisonHeapAux_get (ids : List Nat) (heap : List (List Nat)) (j i : Nat) :
    (poisonHeapAux ids heap j)[i]?
      = (heap[i]?).map
          (fun b => if (j + i) ∈ ids then poisonFill b.length else b) := by
  induction heap generalizing j i with
  | nil => simp [poisonHeapAux]
  | cons b rest ih =>
    cases i with
    | zero => simp [poisonHeapAux]
    | succ n =>
      have harith : j + (n + 1) = (j + 1) + n := by omega
      simp only [poisonHeapAux, List.getElem?_cons_succ, harith]
      exact ih (j + 1) n

/-- A tracked buffer is overwritten with the poison pattern. -/
theorem invalidateRaw_get_tracked (st : RState) (id : Nat) (b : List Nat)
    (hid : id ∈ st.raw) (hb : st.heap[id]? = some b) :
    (invalidateRaw st).heap[id]? = some (poisonFill b.length) := by
  have hh : (invalidateRaw st).heap = poisonHeapAux st.raw st.heap 0 := rfl
  rw [hh, poisonHeapAux_get, Nat.zero_add, hb]
  simp [hid]

/-- An untracked buffer keeps its content across an invalidation pass. -/
theorem invalidateRaw_get_untracked (st : RState) (id : Nat) (b : List Nat)
    (hid : id ∉ st.raw) (hb : st.heap[id]? = some b) :
    (invalidateRaw st).heap[id]? = some b := by
  have hh : (invalidateRaw st).heap = poisonHeapAux st.raw st.heap 0 := rfl
  rw [hh, poisonHeapAux_get, Nat.zero_add, hb]
  simp [hid]

/-- `handOut` only touches the heap and the tracking list. -/
theorem handOut_state_eq (row : List DV) (st : RState) :
    (handOut row st).2
      = { st with heap := (handOut row st).2.heap, raw := (handOut row st).2.raw } := by
  induction row generalizing st with
  | nil => rfl
  | cons c rest ih =>
    cases hraw : rawBytesOf c with
    | some bs =>
      simp only [handOut, hraw]
      rw [ih { st with heap := st.heap ++ [bs], raw := st.raw ++ [st.heap.length] }]
    | none =>
      simp only [handOut, hraw]
      exact ih st

/-- `handOut` extends the heap by appending fresh buffers. -/
theorem handOut_heap_extend (row : List DV) (st : RState) :
    ∃ bufs, (handOut row st).2.heap = st.heap ++ bufs := by
  induction row generalizing st with
  | nil => exact ⟨[], by simp [handOut]⟩
  | cons c rest ih =>
    cases hraw : rawBytesOf c with
    | some bs =>
      obtain ⟨bufs, hb⟩ :=
        ih { st with heap := st.heap ++ [bs], raw := st.raw ++ [st.heap.length] }
      refine ⟨[bs] ++ bufs, ?_⟩
      simp only [handOut, hraw]
      rw [hb]
      simp
    | none =>
      obtain ⟨bufs, hb⟩ := ih st
      exact ⟨bufs, by simp only [handOut, hraw]; exact hb⟩

/-- `handOut` extends the tracking list by appending fresh buffer ids. -/
theorem handOut_raw_extend (row : List DV) (st : RState) :
    ∃ ids, (handOut row st).2.raw = st.raw ++ ids := by
  induction row generalizing st with
  | nil => exact ⟨[], by simp [handOut]⟩
  | cons c rest ih =>
    cases hraw : rawBytesOf c with
    | some bs =>
      obtain ⟨ids, hr⟩ :=
        ih { st with heap := st.heap ++ [bs], raw := st.raw ++ [st.heap.length] }
      refine ⟨[st.heap.length] ++ ids, ?_⟩
      simp only [handOut, hraw]
      rw [hr]
      simp
    | none =>
      obtain ⟨ids, hr⟩ := ih st
      exact ⟨ids, by simp only [handOut, hraw]; exact hr⟩

/-- The `dest` array built by `handOut`: a non-empty byte cell becomes a
tracked fresh buffer holding exactly the cell's bytes, any other cell a
plain value copy. -/
theorem handOut_delivery (row : List DV) (st : RState) :
    (handOut row st).1.length = row.length
    ∧ ∀ (i : Nat) (v : DV), row[i]? = some v →
        ((∀ bs, rawBytesOf v = some bs →
          ∃ id, (handOut row st).1[i]? = some (DestCell.buf id)
            ∧ (handOut row st).2.heap[id]? = some bs
            ∧ id ∈ (handOut row st).2.raw)
        ∧ (rawBytesOf v = none → (handOut row st).1[i]? = some (DestCell.val v))) := by
  induction row generalizing st with
  | nil =>
    refine ⟨by simp [handOut], ?_⟩
    intro i v hv
    simp at hv
  | cons c rest ih =>
    cases hraw : rawBytesOf c with
    | some bs =>
      have ih2 := ih { st with heap := st.heap ++ [bs], raw := st.raw ++ [st.heap.length] }
      constructor
      · simp only [handOut, hraw, List.length_cons]
        simp [ih2.1]
      · intro i v hv
        cases i with
        | zero =>
          have hvc : c = v := by simpa using hv
          subst hvc
          constructor
          · intro bs2 hbs2
            have hbs : bs2 = bs := by
              rw [hraw] at hbs2
              cases hbs2
              rfl
            subst hbs
            refine ⟨st.heap.length, ?_, ?_, ?_⟩
            · simp [handOut, hraw]
            · obtain ⟨bufs, hb⟩ := handOut_heap_extend rest
                { st with heap := st.heap ++ [bs2], raw := st.raw ++ [st.heap.length] }
              simp only [handOut, hraw]
              rw [hb, List.getElem?_append_left (by simp), List.getElem?_concat_length]
            · obtain ⟨ids, hr⟩ := handOut_raw_extend rest
                { st with heap := st.heap ++ [bs2], raw := st.raw ++ [st.heap.length] }
              simp only [handOut, hraw]
              rw [hr]
              simp
          · intro hnone
            rw [hraw] at hnone
            cases hnone
        | succ n =>
          have hv2 : rest[n]? = some v := by simpa using hv
          have hrec := ih2.2 n v hv2
          constructor
          · intro bs2 hbs2
            obtain ⟨id, h1, h2, h3⟩ := hrec.1 bs2 hbs2
            refine ⟨id, ?_, ?_, ?_⟩
            · simpa [handOut, hraw] using h1
            · simpa [handOut, hraw] using h2
            · simpa [handOut, hraw] using h3
          · intro hnone
            simpa [handOut, hraw] using hrec.2 hnone
    | none =>
      have ih2 := ih st
      constructor
      · simp only [handOut, hraw, List.length_cons]
        simp [ih2.1]
      · intro i v hv
        cases i with
        | zero =>
          have hvc : c = v := by simpa using hv
          subst hvc
          constructor
          · intro bs2 hbs2
            rw [hraw] at hbs2
            cases hbs2
          · intro hnone
            simp [handOut, hraw]
        | succ n =>
          have hv2 : rest[n]? = some v := by simpa using hv
          have hrec := ih2.2 n v hv2
          constructor
          · intro bs2 hbs2
            obtain ⟨id, h1, h2, h3⟩ := hrec.1 bs2 hbs2
            refine ⟨id, ?_, ?_, ?_⟩
            · simpa [handOut, hraw] using h1
            · simpa [handOut, hraw] using h2
            · simpa [handOut, hraw] using h3
          · intro hnone
            simpa [handOut, hraw] using hrec.2 hnone

/-- The two branches of `Next`, written out. -/
theorem next_eq_cases (st : RState) :
    ((getSet st).rows.length < (getSet st).pos + 1 →
      next st = (([], some .eof),
        invalidateRaw (setSet st { getSet st with pos := (getSet st).pos + 1 })))
    ∧ ((getSet st).pos + 1 ≤ (getSet st).rows.length →
      next st
        = (((handOut ((getSet st).rows.getD (getSet st).pos [])
              (invalidateRaw (setSet st { getSet st with pos := (getSet st).pos + 1 }))).1,
            mapLookup (getSet st).nextErr (getSet st).pos),
           (handOut ((getSet st).rows.getD (getSet st).pos [])
              (invalidateRaw (setSet st { getSet st with pos := (getSet st).pos + 1 }))).2)) := by
  constructor
  · intro h
    simp [next, h]
  · intro h
    have h2 : ¬ ((getSet st).rows.length < (getSet st).pos + 1) := by omega
    simp [next, h2]

/-- Claim C2: every non-empty byte-slice cell handed out by an advance is
tracked in a fresh buffer holding exactly its bytes; on the next advance or
on close every previously tracked buffer is overwritten in place with the
repeating poison pattern; untracked buffers and the row data itself are
never mutated, and cells that are not non-empty byte slices are delivered
as plain value copies. -/
theorem c2_raw_invalidation (st : RState) :
    (∀ id b, id ∈ st.raw → st.heap[id]? = some b →
      ((next st).2).heap[id]? = some (poisonFill b.length))
    ∧ (∀ id b, id ∈ st.raw → st.heap[id]? = some b →
      ((close st).2).heap[id]? = some (poisonFill b.length))
    ∧ (∀ id b, id ∉ st.raw → st.heap[id]? = some b →
      ((next st).2).heap[id]? = some b)
    ∧ ((close st).2.sets = st.sets ∧ (invalidateRaw st).sets = st.sets)
    ∧ ((getSet st).pos + 1 ≤ (getSet st).rows.length →
      ∀ (i : Nat) (v : DV), ((getSet st).rows.getD (getSet st).pos [])[i]? = some v →
        ((∀ bs, rawBytesOf v = some bs →
          ∃ id, (next st).1.1[i]? = some (DestCell.buf id)
            ∧ ((next st).2).heap[id]? = some bs
            ∧ id ∈ ((next st).2).raw)
        ∧ (rawBytesOf v = none → (next st).1.1[i]? = some (DestCell.val v)))) := by
  refine ⟨?_, ?_, ?_, ⟨rfl, rfl⟩, ?_⟩
  · intro id b hid hb
    by_cases hEOF : (getSet st).rows.length < (getSet st).pos + 1
    · rw [(next_eq_cases st).1 hEOF]
      exact invalidateRaw_get_tracked _ id b hid hb
    · have hle : (getSet st).pos + 1 ≤ (getSet st).rows.length := by omega
      rw [(next_eq_cases st).2 hle]
      have hpois : (invalidateRaw (setSet st
          { getSet st with pos := (getSet st).pos + 1 })).heap[id]?
          = some (poisonFill b.length) :=
        invalidateRaw_get_tracked _ id b hid hb
      obtain ⟨bufs, hbufs⟩ := handOut_heap_extend
        ((getSet st).rows.getD (getSet st).pos [])
        (invalidateRaw (setSet st { getSet st with pos := (getSet st).pos + 1 }))
      obtain ⟨hlt, _⟩ := List.getElem?_eq_some.mp hpois
      show (handOut ((getSet st).rows.getD (getSet st).pos [])
          (invalidateRaw (setSet st
            { getSet st with pos := (getSet st).pos + 1 }))).2.heap[id]?
          = some (poisonFill b.length)
      rw [hbufs, List.getElem?_append_left hlt]
      exact hpois
  · intro id b hid hb
    exact invalidateRaw_get_tracked st id b hid hb
  · intro id b hid hb
    by_cases hEOF : (getSet st).rows.length < (getSet st).pos + 1
    · rw [(next_eq_cases st).1 hEOF]
      exact invalidateRaw_get_untracked _ id b hid hb
    · have hle : (getSet st).pos + 1 ≤ (getSet st).rows.length := by omega
      rw [(next_eq_cases st).2 hle]
      have hkeep : (invalidateRaw (setSet st
          { getSet st with pos := (getSet st).pos + 1 })).heap[id]? = some b :=
        invalidateRaw_get_untracked _ id b hid hb
      obtain ⟨bufs, hbufs⟩ := handOut_heap_extend
        ((getSet st).rows.getD (getSet st).pos [])
        (invalidateRaw (setSet st { getSet st with pos := (getSet st).pos + 1 }))
      obtain ⟨hlt, _⟩ := List.getElem?_eq_some.mp hkeep
      show (handOut ((getSet st).rows.getD (getSet st).pos [])
          (invalidateRaw (setSet st
            { getSet st with pos := (getSet st).pos + 1 }))).2.heap[id]?
          = some b
      rw [hbufs, List.getElem?_append_left hlt]
      exact hkeep
  · intro hle i v hv
    rw [(next_eq_cases st).2 hle]
    exact (handOut_delivery ((getSet st).rows.getD (getSet st).pos [])
      (invalidateRaw (setSet st { getSet st with pos := (getSet st).pos + 1 }))).2 i v hv

theorem c2_witness :
    ((next c2fixState).2).heap[0]? = some (poisonFill 3) :=
  (c2_raw_invalidation c2fixState).1 0 [1, 2, 3] (by decide) rfl

/-- After a non-EOF advance the state is the cursor-advanced set list with
some tracking list and heap. -/
theorem next_shape (stn : RState)
    (hle : (getSet stn).pos + 1 ≤ (getSet stn).rows.length) :
    ∃ rw hp, (next stn).2
      = ⟨(setSet stn { getSet stn with pos := (getSet stn).pos + 1 }).sets,
         stn.pos, rw, stn.rowsWereClosed, hp⟩ := by
  refine ⟨(next stn).2.raw, (next stn).2.heap, ?_⟩
  rw [(next_eq_cases stn).2 hle]
  rw [handOut_state_eq]
  rfl

/-- After `i` driver advances from a fresh single-set state the set's
cursor is at `i`, only the tracking list and the heap having changed. -/
theorem driverIter_shape (r : Rows) (hpos : r.pos = 0) (i : Nat)
    (hi : i ≤ r.rows.length) :
    ∃ rw hp, driverIter ⟨[r], 0, [], false, []⟩ i
      = ⟨[⟨r.cols, r.rows, i, r.nextErr, r.closeErr⟩], 0, rw, false, hp⟩ := by
  induction i with
  | zero =>
    refine ⟨[], [], ?_⟩
    cases r with
    | mk cols rows pos ne ce =>
      simp only at hpos
      subst hpos
      rfl
  | succ n ih =>
    obtain ⟨rw1, hp1, heq⟩ := ih (by omega)
    have hle : (getSet (⟨[⟨r.cols, r.rows, n, r.nextErr, r.closeErr⟩],
        0, rw1, false, hp1⟩ : RState)).pos + 1
        ≤ (getSet (⟨[⟨r.cols, r.rows, n, r.nextErr, r.closeErr⟩],
            0, rw1, false, hp1⟩ : RState)).rows.length := by
      simp only [getSet, List.getD_cons_zero]
      omega
    obtain ⟨rw2, hp2, hsh⟩ := next_shape (⟨[⟨r.cols, r.rows, n, r.nextErr,
      r.closeErr⟩], 0, rw1, false, hp1⟩ : RState) hle
    simp only [driverIter]
    rw [heq, hsh]
    exact ⟨rw2, hp2, rfl⟩

/-- After `i` clean client advances (no row error among the first `i`) from
a fresh single-set state the rows are still open with the cursor at `i`. -/
theorem clientIter_shape (r : Rows) (hpos : r.pos = 0) (i : Nat)
    (hi : i ≤ r.rows.length)
    (hne : ∀ j, j < i → mapLookup r.nextErr j = none) :
    ∃ rw hp, clientIter ⟨⟨[r], 0, [], false, []⟩, false, none⟩ i
      = ⟨⟨[⟨r.cols, r.rows, i, r.nextErr, r.closeErr⟩], 0, rw, false, hp⟩,
         false, none⟩ := by
  induction i with
  | zero =>
    refine ⟨[], [], ?_⟩
    cases r with
    | mk cols rows pos ne ce =>
      simp only at hpos
      subst hpos
      rfl
  | succ n ih =>
    obtain ⟨rw1, hp1, heq⟩ := ih (by omega) (fun j hj => hne j (by omega))
    have hle : (getSet (⟨[⟨r.cols, r.rows, n, r.nextErr, r.closeErr⟩],
        0, rw1, false, hp1⟩ : RState)).pos + 1
        ≤ (getSet (⟨[⟨r.cols, r.rows, n, r.nextErr, r.closeErr⟩],
            0, rw1, false, hp1⟩ : RState)).rows.length := by
      simp only [getSet, List.getD_cons_zero]
      omega
    have hnext := (next_eq_cases (⟨[⟨r.cols, r.rows, n, r.nextErr, r.closeErr⟩],
        0, rw1, false, hp1⟩ : RState)).2 hle
    have herr : (next (⟨[⟨r.cols, r.rows, n, r.nextErr, r.closeErr⟩],
        0, rw1, false, hp1⟩ : RState)).1.2 = none := by
      rw [hnext]
      exact hne n (by omega)
    simp only [clientIter]
    rw [heq]
    have hstep : clientNext ⟨⟨[⟨r.cols, r.rows, n, r.nextErr, r.closeErr⟩],
        0, rw1, false, hp1⟩, false, none⟩
        = (some (next (⟨[⟨r.cols, r.rows, n, r.nextErr, r.closeErr⟩],
            0, rw1, false, hp1⟩ : RState)).1.1,
           ⟨(next (⟨[⟨r.cols, r.rows, n, r.nextErr, r.closeErr⟩],
              0, rw1, false, hp1⟩ : RState)).2, false, none⟩) := by
      simp only [clientNext, herr]
      rfl
    obtain ⟨rw2, hp2, hsh⟩ := next_shape (⟨[⟨r.cols, r.rows, n, r.nextErr,
      r.closeErr⟩], 0, rw1, false, hp1⟩ : RState) hle
    rw [hstep, hsh]
    exact ⟨rw2, hp2, rfl⟩

/-- A closed client rows set yields nothing on a further advance. -/
theorem clientNext_closed (c : ClientRows) (h : c.closed = true) :
    clientNext c = (none, c) := by
  simp [clientNext, h]

/-- Claim C3: a row set with a programmed close error that is iterated to
its natural end (the advance after the last row reports EOF and the client
auto-closes) returns no error when closed; closing at any point before the
natural end returns the programmed close error.  The suppression lives in
the client-side close protocol modelled from the spec; the driver-level
`Close` returns the programmed error unconditionally. -/
theorem c3_close_error_suppression (r : Rows) (e0 : GoError)
    (hpos : r.pos = 0) (hce : r.closeErr = some e0)
    (hne : ∀ j, mapLookup r.nextErr j = none) :
    ((clientIter ⟨⟨[r], 0, [], false, []⟩, false, none⟩ (r.rows.length + 1)).closed
        = true)
    ∧ ((clientClose (clientIter ⟨⟨[r], 0, [], false, []⟩, false, none⟩
        (r.rows.length + 1))).1 = none)
    ∧ (∀ i, i ≤ r.rows.length →
        (clientClose (clientIter ⟨⟨[r], 0, [], false, []⟩, false, none⟩ i)).1
          = some e0) := by
  obtain ⟨rw1, hp1, heq⟩ := clientIter_shape r hpos r.rows.length (le_refl _)
    (fun j hj => hne j)
  have hEOF : (getSet (⟨[⟨r.cols, r.rows, r.rows.length, r.nextErr, r.closeErr⟩],
      0, rw1, false, hp1⟩ : RState)).rows.length
      < (getSet (⟨[⟨r.cols, r.rows, r.rows.length, r.nextErr, r.closeErr⟩],
          0, rw1, false, hp1⟩ : RState)).pos + 1 := by
    simp only [getSet, List.getD_cons_zero]
    omega
  have hnext := (next_eq_cases (⟨[⟨r.cols, r.rows, r.rows.length, r.nextErr,
      r.closeErr⟩], 0, rw1, false, hp1⟩ : RState)).1 hEOF
  have hlast : clientIter ⟨⟨[r], 0, [], false, []⟩, false, none⟩ (r.rows.length + 1)
      = (clientNext (clientIter ⟨⟨[r], 0, [], false, []⟩, false, none⟩
          r.rows.length)).2 := rfl
  have hclosedstep : (clientNext ⟨⟨[⟨r.cols, r.rows, r.rows.length, r.nextErr,
      r.closeErr⟩], 0, rw1, false, hp1⟩, false, none⟩).2.closed = true := by
    simp only [clientNext, hnext]
    rfl
  constructor
  · rw [hlast, heq]
    exact hclosedstep
  constructor
  · rw [hlast, heq]
    have hcl := hclosedstep
    simp [clientClose, hcl]
  · intro i hi
    obtain ⟨rw2, hp2, heq2⟩ := clientIter_shape r hpos i hi (fun j hj => hne j)
    rw [heq2]
    simp only [clientClose, Bool.false_eq_true, if_false]
    show (getSet (⟨[⟨r.cols, r.rows, i, r.nextErr, r.closeErr⟩],
        0, rw2, false, hp2⟩ : RState)).closeErr = some e0
    simp only [getSet, List.getD_cons_zero]
    exact hce

theorem c3_witness :
    ((clientClose (clientIter ⟨⟨[⟨["a"], [[DV.dint 1]], 0, [],
        some (GoError.user 9)⟩], 0, [], false, []⟩, false, none⟩ 2)).1 = none)
    ∧ ((clientClose (clientIter ⟨⟨[⟨["a"], [[DV.dint 1]], 0, [],
        some (GoError.user 9)⟩], 0, [], false, []⟩, false, none⟩ 0)).1
        = some (GoError.user 9)) :=
  ⟨(c3_close_error_suppression ⟨["a"], [[DV.dint 1]], 0, [], some (GoError.user 9)⟩
      (GoError.user 9) rfl rfl (fun j => rfl)).2.1,
   (c3_close_error_suppression ⟨["a"], [[DV.dint 1]], 0, [], some (GoError.user 9)⟩
      (GoError.user 9) rfl rfl (fun j => rfl)).2.2 0 (by omega)⟩

/-- Claim C5 (amended): with an error injected at row index `k`, advancing
delivers every row `i` with exactly the error stored for `i` — none before
`k`, the injected error on the advance that consumes row `k`; the driver
itself keeps delivering the remaining rows if advanced further, and it is
the stop-on-error client protocol that delivers nothing after the error
(the client auto-closes on it). -/
theorem c5_row_error_delivery (r : Rows) (k : Nat) (ek : GoError)
    (hpos : r.pos = 0) (hk : k < r.rows.length)
    (herrk : mapLookup r.nextErr k = some ek)
    (hbef : ∀ j, j < k → mapLookup r.nextErr j = none) :
    (∀ i, i < r.rows.length →
      (next (driverIter ⟨[r], 0, [], false, []⟩ i)).1.2 = mapLookup r.nextErr i
      ∧ ∀ (j : Nat) (v : DV), (r.rows.getD i [])[j]? = some v →
          ((∀ bs, rawBytesOf v = some bs →
            ∃ id, (next (driverIter ⟨[r], 0, [], false, []⟩ i)).1.1[j]?
                = some (DestCell.buf id)
              ∧ ((next (driverIter ⟨[r], 0, [], false, []⟩ i)).2).heap[id]? = some bs)
          ∧ (rawBytesOf v = none →
            (next (driverIter ⟨[r], 0, [], false, []⟩ i)).1.1[j]?
              = some (DestCell.val v))))
    ∧ (∀ i, i ≤ k →
        (next (driverIter ⟨[r], 0, [], false, []⟩ i)).1.2
          = (if i = k then some ek else none))
    ∧ ((clientIter ⟨⟨[r], 0, [], false, []⟩, false, none⟩ (k + 1)).closed = true
       ∧ ∀ c : ClientRows, c.closed = true → clientNext c = (none, c)) := by
  have hgen : ∀ i, i < r.rows.length →
      (next (driverIter ⟨[r], 0, [], false, []⟩ i)).1.2 = mapLookup r.nextErr i
      ∧ ∀ (j : Nat) (v : DV), (r.rows.getD i [])[j]? = some v →
          ((∀ bs, rawBytesOf v = some bs →
            ∃ id, (next (driverIter ⟨[r], 0, [], false, []⟩ i)).1.1[j]?
                = some (DestCell.buf id)
              ∧ ((next (driverIter ⟨[r], 0, [], false, []⟩ i)).2).heap[id]? = some bs)
          ∧ (rawBytesOf v = none →
            (next (driverIter ⟨[r], 0, [], false, []⟩ i)).1.1[j]?
              = some (DestCell.val v))) := by
    intro i hi
    obtain ⟨rw1, hp1, heq⟩ := driverIter_shape r hpos i (by omega)
    have hle : (getSet (⟨[⟨r.cols, r.rows, i, r.nextErr, r.closeErr⟩],
        0, rw1, false, hp1⟩ : RState)).pos + 1
        ≤ (getSet (⟨[⟨r.cols, r.rows, i, r.nextErr, r.closeErr⟩],
            0, rw1, false, hp1⟩ : RState)).rows.length := by
      simp only [getSet, List.getD_cons_zero]
      omega
    have hnext := (next_eq_cases (⟨[⟨r.cols, r.rows, i, r.nextErr, r.closeErr⟩],
        0, rw1, false, hp1⟩ : RState)).2 hle
    rw [heq, hnext]
    constructor
    · rfl
    · intro j v hv
      have hdel := (handOut_delivery ((r.rows.getD i []))
        (invalidateRaw (setSet (⟨[⟨r.cols, r.rows, i, r.nextErr, r.closeErr⟩],
          0, rw1, false, hp1⟩ : RState)
          { getSet (⟨[⟨r.cols, r.rows, i, r.nextErr, r.closeErr⟩],
              0, rw1, false, hp1⟩ : RState) with
            pos := (getSet (⟨[⟨r.cols, r.rows, i, r.nextErr, r.closeErr⟩],
              0, rw1, false, hp1⟩ : RState)).pos + 1 }))).2 j v hv
      constructor
      · intro bs hbs
        obtain ⟨id, h1, h2, _⟩ := hdel.1 bs hbs
        exact ⟨id, h1, h2⟩
      · exact hdel.2
  refine ⟨hgen, ?_, ?_, ?_⟩
  · intro i hik
    have h1 := (hgen i (by omega)).1
    rw [h1]
    by_cases hieq : i = k
    · subst hieq
      simp [herrk]
    · simp [hieq, hbef i (by omega)]
  · obtain ⟨rw1, hp1, heq⟩ := clientIter_shape r hpos k (by omega)
      (fun j hj => hbef j hj)
    have hle : (getSet (⟨[⟨r.cols, r.rows, k, r.nextErr, r.closeErr⟩],
        0, rw1, false, hp1⟩ : RState)).pos + 1
        ≤ (getSet (⟨[⟨r.cols, r.rows, k, r.nextErr, r.closeErr⟩],
            0, rw1, false, hp1⟩ : RState)).rows.length := by
      simp only [getSet, List.getD_cons_zero]
      omega
    have hnext := (next_eq_cases (⟨[⟨r.cols, r.rows, k, r.nextErr, r.closeErr⟩],
        0, rw1, false, hp1⟩ : RState)).2 hle
    have herr : (next (⟨[⟨r.cols, r.rows, k, r.nextErr, r.closeErr⟩],
        0, rw1, false, hp1⟩ : RState)).1.2 = some ek := by
      rw [hnext]
      exact herrk
    have hlast : clientIter ⟨⟨[r], 0, [], false, []⟩, false, none⟩ (k + 1)
        = (clientNext (clientIter ⟨⟨[r], 0, [], false, []⟩, false, none⟩ k)).2 := rfl
    rw [hlast, heq]
    simp only [clientNext, herr]
    rfl
  · exact fun c h => clientNext_closed c h

theorem c5_witness :
    (next (driverIter ⟨[c5fixRows], 0, [], false, []⟩ 0)).1.2
      = (if 0 = 0 then some (GoError.user 7) else none) :=
  (c5_row_error_delivery c5fixRows 0 (GoError.user 7) rfl (by decide) rfl
      (fun j hj => absurd hj (by omega))).2.1 0 (le_refl 0)

end Sqlmock
